import Mathlib

/-!
# baaah: `pkg/typed/map.go` and `pkg/runtime/backend.go`

A shallow embedding of the two source files and the properties proved about
them.

* Go strings are immutable byte sequences: `GoString := List UInt8`.
* A Go map is a finite set of entries with pairwise distinct keys. The order
  in which `range` visits the entries is unspecified; the model exposes it as
  the order of the list `entries`, so every statement quantified over a map
  holds for every iteration order.
* The key type of `pkg/typed/map.go` satisfies `constraints.Ordered`, which
  admits floating-point types. Such a type is modelled by its operators `==`
  and `<`, which on NaN are both false; a map may then hold several NaN keys.
* Calls into collaborators that are not part of the two files (controller
  factory, controllers, cache, scheme, purge task) are modelled as
  transitions of an external world `ω`, and every call is recorded in a
  trace.
-/

namespace Baaah

/-! ## Go maps -/

/-- A Go `map[K]V`: entries with pairwise distinct keys, listed in the order
in which a `range` loop happens to visit them. -/
structure GoMap (K V : Type) where
  entries : List (K × V)
  nodup : (entries.map Prod.fst).Nodup

namespace GoMap

variable {K V : Type}

/-- The empty map (`map[K]V{}`). -/
def empty : GoMap K V := ⟨[], List.nodup_nil⟩

/-- The comma-ok lookup `v, ok := m[k]`. -/
def lookup [DecidableEq K] (m : GoMap K V) (k : K) : Option V :=
  (m.entries.find? (fun e => decide (e.1 = k))).map Prod.snd

/-- The plain index expression `m[k]`: the zero value when `k` is absent. -/
def get [DecidableEq K] [Inhabited V] (m : GoMap K V) (k : K) : V :=
  (m.lookup k).getD default

/-- The assignment `m[k] = v`: any previous entry for `k` is replaced. -/
def assign [DecidableEq K] (m : GoMap K V) (k : K) (v : V) : GoMap K V :=
  ⟨(m.entries.filter (fun e => decide (e.1 ≠ k))) ++ [(k, v)], by
    rw [List.map_append, List.nodup_append]
    refine ⟨((List.filter_sublist m.entries).map Prod.fst).nodup m.nodup, by simp, ?_⟩
    intro a ha hb
    simp only [List.map_cons, List.map_nil, List.mem_singleton] at hb
    subst hb
    simp only [List.mem_map, List.mem_filter] at ha
    obtain ⟨e, ⟨_, he⟩, rfl⟩ := ha
    simp at he⟩

end GoMap

/-! ## `pkg/typed/map.go` -/

namespace typed

variable {K V : Type}

/-- A key type satisfying `constraints.Ordered`, given by its Go operators
`==` and `<`. The laws are those shared by the integer, string and
floating-point types: `==` holds only between equal values, `<` is
irreflexive and transitive, and two values that are each `==` to themselves
(that is, neither is NaN) are comparable. -/
class GoOrdered (K : Type) where
  eq : K → K → Bool
  lt : K → K → Bool
  eq_sound : ∀ a b, eq a b = true → a = b
  lt_irr : ∀ a, lt a a = false
  lt_tr : ∀ a b c, lt a b = true → lt b c = true → lt a c = true
  lt_total : ∀ a b, eq a a = true → eq b b = true → lt a b = true ∨ a = b ∨ lt b a = true

/-- The integer and string key types: `<` is a linear order and `==` is
equality. -/
instance (priority := low) instGoOrderedOfLinearOrder [LinearOrder K] : GoOrdered K where
  eq := fun a b => decide (a = b)
  lt := fun a b => decide (a < b)
  eq_sound := fun _ _ h => of_decide_eq_true h
  lt_irr := fun a => decide_eq_false (lt_irrefl a)
  lt_tr := fun _ _ _ h1 h2 =>
    decide_eq_true (lt_trans (of_decide_eq_true h1) (of_decide_eq_true h2))
  lt_total := fun a b _ _ => by
    rcases lt_trichotomy a b with h | h | h
    · exact Or.inl (decide_eq_true h)
    · exact Or.inr (Or.inl h)
    · exact Or.inr (Or.inr (decide_eq_true h))

/-- A floating-point key as `==` and `<` see it: NaN, or a number. The
numbers of the type, with their order, are the parameter `R`. -/
inductive FloatKey (R : Type) where
  | nan
  | num (r : R)
deriving DecidableEq, Repr

/-- The operator `==` on floating-point keys: false when an operand is NaN. -/
def FloatKey.eq {R : Type} [LinearOrder R] : FloatKey R → FloatKey R → Bool
  | FloatKey.num a, FloatKey.num b => decide (a = b)
  | _, _ => false

/-- The operator `<` on floating-point keys: false when an operand is NaN. -/
def FloatKey.lt {R : Type} [LinearOrder R] : FloatKey R → FloatKey R → Bool
  | FloatKey.num a, FloatKey.num b => decide (a < b)
  | _, _ => false

/-- The floating-point key types. -/
instance instGoOrderedFloatKey {R : Type} [LinearOrder R] : GoOrdered (FloatKey R) where
  eq := FloatKey.eq
  lt := FloatKey.lt
  eq_sound := fun a b h => by
    cases a <;> cases b <;> simp_all [FloatKey.eq]
  lt_irr := fun a => by cases a <;> simp [FloatKey.lt]
  lt_tr := fun a b c h1 h2 => by
    cases a <;> cases b <;> cases c <;> simp_all [FloatKey.lt]
    exact lt_trans h1 h2
  lt_total := fun a b ha hb => by
    cases a <;> cases b <;> simp_all [FloatKey.eq, FloatKey.lt]
    exact lt_trichotomy _ _

/-- A Go `map[K]V` with an ordered key type: no two entries have keys that
are `==`, so a NaN key may occur several times. The entries are listed in
the order in which a `range` loop happens to visit them. -/
structure OrdMap (K V : Type) [GoOrdered K] where
  entries : List (K × V)
  distinct : entries.Pairwise (fun a b => GoOrdered.eq a.1 b.1 = false)

/-- The empty map. -/
def OrdMap.empty [GoOrdered K] : OrdMap K V := ⟨[], List.Pairwise.nil⟩

/-- The index expression `data[key]`: the value of the entry whose key is
`==` to `key`, or the zero value when there is none. -/
def OrdMap.get [GoOrdered K] [Inhabited V] (data : OrdMap K V) (key : K) : V :=
  ((data.entries.find? (fun e => GoOrdered.eq e.1 key)).map Prod.snd).getD default

/-- The inner loop of the library's insertion sort,
`for j := i; j > a && less(j, j-1); j-- { swap(j, j-1) }`: the element `x`
at position `i` moves down the sorted part, which is given nearest element
first. -/
def sink (less : K → K → Bool) (x : K) : List K → List K
  | [] => [x]
  | p :: ps => if less x p then p :: sink less x ps else x :: p :: ps

/-- The call `sort.Slice(result, less)` of the standard library, as the
insertion sort the library runs on slices of at most 12 elements, driven by
the caller's `less`. On longer slices the library runs another algorithm; on
a strict total order every sorting algorithm returns the same slice. -/
def sortSlice (less : K → K → Bool) (l : List K) : List K :=
  (l.foldl (fun sorted x => sink less x sorted) []).reverse

/-- The function `SortedKeys`: collect the keys, then `sort.Slice` them with
`result[i] < result[j]`. -/
def SortedKeys [GoOrdered K] (data : OrdMap K V) : List K :=
  sortSlice (fun a b => GoOrdered.lt a b)
    (data.entries.foldl (fun result e => result ++ [e.1]) [])

/-- The struct `Entry[K, V]`. -/
structure Entry (K V : Type) where
  Key : K
  Value : V
deriving DecidableEq, Repr

/-- The function `Sorted`: one `Entry` per sorted key, with `Value: data[key]`. -/
def Sorted [GoOrdered K] [Inhabited V] (data : OrdMap K V) : List (Entry K V) :=
  (SortedKeys data).foldl (fun result key => result ++ [⟨key, data.get key⟩]) []

end typed

/-! ## `pkg/runtime/backend.go`: data -/

/-- A Go `string`: an immutable sequence of bytes. -/
abbrev GoString := List UInt8

/-- A non-nil Go `error`, identified by its message. A nil error is `none`
of `Option GoError`. -/
abbrev GoError := String

/-- The type `schema.GroupVersionKind`. -/
structure GVK where
  Group : GoString
  Version : GoString
  Kind : GoString
deriving DecidableEq, Repr

/-- A handle on a `SharedController` returned by `ForKind`. -/
abbrev Controller := Nat

/-- A handle on the informer returned by `cache.GetInformerForKind`. -/
abbrev Informer := Nat

/-- The interface `fields.Fields`. -/
structure Fields where
  FieldNames : List GoString
  Get : GoString → GoString

/-- The part of `kclient.Object` the file uses. -/
structure KObject where
  GetNamespace : GoString

/-- A dynamically typed object (`interface{}` / `runtime.Object`) together
with the outcome of the two type assertions the file performs on it:
`obj.(fields.Fields)` and `obj.(kclient.Object)`. -/
structure Obj where
  asFields : Option Fields
  asObject : Option KObject

/-- The type `kcache.IndexFunc`: returns `([]string, error)`. -/
abbrev IndexFunc := Obj → List GoString × Option GoError

/-- The type `SharedControllerHandlerFunc`. -/
abbrev Handler := GoString → Obj → Obj × Option GoError

/-- The type `backend.Callback`. -/
abbrev Callback := GVK → GoString → Obj → Obj × Option GoError

/-- One call made by `backend.go` into a collaborator. -/
inductive Call where
  | factoryStart (workers : Nat)
  | waitForCacheSync
  | startPurge
  | forKind (gvk : GVK)
  | enqueueKey (c : Controller) (key : GoString)
  | enqueueAfter (c : Controller) (ns name : GoString) (delay : Int)
  | schemeNew (gvk : GVK)
  | getInformerForKind (gvk : GVK)
  | addIndexers (inf : Informer) (indexers : GoMap GoString IndexFunc)
  | registerHandler (c : Controller) (name : GoString) (h : Handler)
  | controllerStart (c : Controller) (workers : Nat)

namespace Call

/-- Is the call `cacheClient.startPurge`? -/
def isStartPurge : Call → Bool
  | startPurge => true
  | _ => false

/-- Is the call a queue operation (`EnqueueKey` or `EnqueueAfter`)? -/
def isQueueOp : Call → Bool
  | enqueueKey _ _ => true
  | enqueueAfter _ _ _ _ => true
  | _ => false

/-- Is the call `AddIndexers`? -/
def isAddIndexers : Call → Bool
  | addIndexers _ _ => true
  | _ => false

/-- Is the call `RegisterHandler`? -/
def isRegisterHandler : Call → Bool
  | registerHandler _ _ _ => true
  | _ => false

/-- Is the call a controller's `Start`? -/
def isControllerStart : Call → Bool
  | controllerStart _ _ => true
  | _ => false

end Call

/-- The collaborators of `backend.go`, none of which is defined in the file:
the constant `router.TriggerPrefix`, the helper `keyFunc`, the `String`
method of `GroupVersionKind` used by the `%v` verb, and the stateful
components (controller factory, controllers, cache, scheme, purge task) as
transitions of an external world `ω`. The context argument is not modelled:
cancellation shows only in what these calls return. -/
structure Ext (ω : Type) where
  TriggerPrefix : GoString
  keyFunc : GoString → GoString → GoString
  gvkString : GVK → GoString
  factoryStart : Nat → ω → Option GoError × ω
  WaitForCacheSync : ω → Bool × ω
  startPurge : ω → ω
  ForKind : GVK → ω → Except GoError Controller × ω
  EnqueueKey : Controller → GoString → ω → ω
  EnqueueAfter : Controller → GoString → GoString → Int → ω → ω
  schemeNew : GVK → ω → Except GoError Obj × ω
  GetInformerForKind : GVK → ω → Except GoError Informer × ω
  AddIndexers : Informer → GoMap GoString IndexFunc → ω → Option GoError × ω
  RegisterHandler : Controller → GoString → Handler → ω → ω
  controllerStart : Controller → Nat → ω → Option GoError × ω

/-- The struct `Backend` in its environment: the atomic flag `started`, the
state of the collaborators, and the calls made so far. -/
structure Backend (ω : Type) where
  started : Bool
  world : ω
  trace : List Call

/-- The constructor `newBackend`: the flag has its zero value. -/
def newBackend {ω : Type} (w : ω) : Backend ω :=
  { started := false, world := w, trace := [] }

/-! ## Standard library: `strings.Cut` -/

/-- The function `strings.Index(s, sep)`: the index of the first occurrence of `sep`. -/
def stringsIndex (s sep : GoString) : Option Nat :=
  if sep.isPrefixOf s then some 0
  else match s with
    | [] => none
    | _ :: t => (stringsIndex t sep).map (· + 1)

/-- The function `strings.Cut(s, sep)`: `(before, after, found)`. -/
def stringsCut (s sep : GoString) : GoString × GoString × Bool :=
  match stringsIndex s sep with
  | some i => (s.take i, s.drop (i + sep.length), true)
  | none => (s, [], false)

/-- The string literal `"/"`. -/
def slash : GoString := [47]

/-- The string literal `"field:"`. -/
def fieldColon : GoString := [102, 105, 101, 108, 100, 58]

/-- The format `"%s %v"` applied to a name and a kind. -/
def handlerName {ω : Type} (x : Ext ω) (name : GoString) (gvk : GVK) : GoString :=
  name ++ [32] ++ x.gvkString gvk

/-! ## Calls into the collaborators -/

section calls

variable {ω : Type}

/-- The call `b.cacheFactory.Start(ctx, n)`, recorded in the trace. -/
def callFactoryStart (x : Ext ω) (n : Nat) (b : Backend ω) : Option GoError × Backend ω :=
  ((x.factoryStart n b.world).1,
    { b with world := (x.factoryStart n b.world).2, trace := b.trace ++ [Call.factoryStart n] })

/-- The call `b.cache.WaitForCacheSync(ctx)`, recorded in the trace. -/
def callWaitForCacheSync (x : Ext ω) (b : Backend ω) : Bool × Backend ω :=
  ((x.WaitForCacheSync b.world).1,
    { b with world := (x.WaitForCacheSync b.world).2, trace := b.trace ++ [Call.waitForCacheSync] })

/-- The call `b.cacheClient.startPurge(ctx)`, recorded in the trace. -/
def callStartPurge (x : Ext ω) (b : Backend ω) : Backend ω :=
  { b with world := x.startPurge b.world, trace := b.trace ++ [Call.startPurge] }

/-- The call `b.cacheFactory.ForKind(gvk)`, recorded in the trace. -/
def callForKind (x : Ext ω) (gvk : GVK) (b : Backend ω) : Except GoError Controller × Backend ω :=
  ((x.ForKind gvk b.world).1,
    { b with world := (x.ForKind gvk b.world).2, trace := b.trace ++ [Call.forKind gvk] })

/-- The call `controller.EnqueueKey(key)`, recorded in the trace. -/
def callEnqueueKey (x : Ext ω) (c : Controller) (key : GoString) (b : Backend ω) : Backend ω :=
  { b with world := x.EnqueueKey c key b.world, trace := b.trace ++ [Call.enqueueKey c key] }

/-- The call `controller.EnqueueAfter(ns, name, delay)`, recorded in the trace. -/
def callEnqueueAfter (x : Ext ω) (c : Controller) (ns name : GoString) (delay : Int)
    (b : Backend ω) : Backend ω :=
  { b with world := x.EnqueueAfter c ns name delay b.world,
           trace := b.trace ++ [Call.enqueueAfter c ns name delay] }

/-- The call `b.Scheme().New(gvk)`, recorded in the trace. -/
def callSchemeNew (x : Ext ω) (gvk : GVK) (b : Backend ω) : Except GoError Obj × Backend ω :=
  ((x.schemeNew gvk b.world).1,
    { b with world := (x.schemeNew gvk b.world).2, trace := b.trace ++ [Call.schemeNew gvk] })

/-- The call `b.cache.GetInformerForKind(ctx, gvk)`, recorded in the trace. -/
def callGetInformerForKind (x : Ext ω) (gvk : GVK) (b : Backend ω) :
    Except GoError Informer × Backend ω :=
  ((x.GetInformerForKind gvk b.world).1,
    { b with world := (x.GetInformerForKind gvk b.world).2,
             trace := b.trace ++ [Call.getInformerForKind gvk] })

/-- The call `cache.AddIndexers(indexers)`, recorded in the trace. -/
def callAddIndexers (x : Ext ω) (inf : Informer) (indexers : GoMap GoString IndexFunc)
    (b : Backend ω) : Option GoError × Backend ω :=
  ((x.AddIndexers inf indexers b.world).1,
    { b with world := (x.AddIndexers inf indexers b.world).2,
             trace := b.trace ++ [Call.addIndexers inf indexers] })

/-- The call `c.RegisterHandler(ctx, name, handler)`, recorded in the trace. -/
def callRegisterHandler (x : Ext ω) (c : Controller) (name : GoString) (h : Handler)
    (b : Backend ω) : Backend ω :=
  { b with world := x.RegisterHandler c name h b.world,
           trace := b.trace ++ [Call.registerHandler c name h] }

/-- The call `c.Start(ctx, n)`, recorded in the trace. -/
def callControllerStart (x : Ext ω) (c : Controller) (n : Nat) (b : Backend ω) :
    Option GoError × Backend ω :=
  ((x.controllerStart c n b.world).1,
    { b with world := (x.controllerStart c n b.world).2,
             trace := b.trace ++ [Call.controllerStart c n] })

end calls

/-! ## `pkg/runtime/backend.go`: operations -/

section operations

variable {ω : Type}

/-- The error built by `fmt.Errorf` in `Start`. -/
def syncError : GoError := "failed to wait for caches to sync"

/-- The deferred function of `Start`: store `true` when the named result
`err` is nil. -/
def startDeferred (err : Option GoError) (b : Backend ω) : Backend ω :=
  match err with
  | none => { b with started := true }
  | some _ => b

/-- The method `Backend.Start`. Every `return` runs the deferred function on the value
being returned. -/
def Backend.Start (x : Ext ω) (b : Backend ω) : Backend ω × Option GoError :=
  match callFactoryStart x 5 b with
  | (some err, b1) => (startDeferred (some err) b1, some err)
  | (none, b1) =>
    match callWaitForCacheSync x b1 with
    | (false, b2) => (startDeferred (some syncError) b2, some syncError)
    | (true, b2) =>
      let b3 := if !b2.started then callStartPurge x b2 else b2
      (startDeferred none b3, none)

/-- The method `Backend.Trigger`; `delay` is a `time.Duration`, an integer. -/
def Backend.Trigger (x : Ext ω) (gvk : GVK) (key : GoString) (delay : Int) (b : Backend ω) :
    Backend ω × Option GoError :=
  match callForKind x gvk b with
  | (Except.error err, b1) => (b1, some err)
  | (Except.ok controller, b1) =>
    if delay > 0 then
      match stringsCut key slash with
      | (ns, name, true) => (callEnqueueAfter x controller ns name delay b1, none)
      | (_, _, false) => (callEnqueueAfter x controller [] key delay b1, none)
    else
      (callEnqueueKey x controller (x.TriggerPrefix ++ key) b1, none)

/-- The closure stored in `indexers["field:"+field]` by `addIndexer`. -/
def indexFunc (x : Ext ω) (field : GoString) : IndexFunc := fun obj =>
  match obj.asFields with
  | none => ([], none)
  | some f =>
    let v := f.Get field
    if v = [] then ([], none)
    else
      let vals := [x.keyFunc [] v]
      match obj.asObject with
      | some ko =>
        if ko.GetNamespace ≠ [] then (vals ++ [x.keyFunc ko.GetNamespace v], none)
        else (vals, none)
      | none => (vals, none)

/-- The loop of `addIndexer` that fills the map `indexers`. -/
def buildIndexers (x : Ext ω) (fieldNames : List GoString) : GoMap GoString IndexFunc :=
  fieldNames.foldl (fun indexers field => indexers.assign (fieldColon ++ field) (indexFunc x field))
    GoMap.empty

/-- The method `Backend.addIndexer`. -/
def Backend.addIndexer (x : Ext ω) (gvk : GVK) (b : Backend ω) : Backend ω × Option GoError :=
  match callSchemeNew x gvk b with
  | (Except.error err, b1) => (b1, some err)
  | (Except.ok obj, b1) =>
    match obj.asFields with
    | none => (b1, none)
    | some f =>
      match callGetInformerForKind x gvk b1 with
      | (Except.error err, b2) => (b2, some err)
      | (Except.ok cache, b2) =>
        let r := callAddIndexers x cache (buildIndexers x f.FieldNames) b2
        (r.2, r.1)

/-- The method `Backend.Watch`. -/
def Backend.Watch (x : Ext ω) (gvk : GVK) (name : GoString) (cb : Callback) (b : Backend ω) :
    Backend ω × Option GoError :=
  match callForKind x gvk b with
  | (Except.error err, b1) => (b1, some err)
  | (Except.ok c, b1) =>
    match b1.addIndexer x gvk with
    | (b2, some err) => (b2, some err)
    | (b2, none) =>
      let handler : Handler := fun key obj => cb gvk key obj
      let b3 := callRegisterHandler x c (handlerName x name gvk) handler b2
      if b3.started then
        let r := callControllerStart x c 5 b3
        (r.2, r.1)
      else
        (b3, none)

/-! ### Sequences of calls on one `Backend` -/

/-- One call of a public operation. -/
inductive Op where
  | start
  | trigger (gvk : GVK) (key : GoString) (delay : Int)
  | watch (gvk : GVK) (name : GoString) (cb : Callback)

/-- Is the operation `Start`? -/
def Op.isStart : Op → Bool
  | Op.start => true
  | _ => false

/-- Run one operation. -/
def Op.run (x : Ext ω) : Op → Backend ω → Backend ω × Option GoError
  | Op.start, b => b.Start x
  | Op.trigger gvk key delay, b => b.Trigger x gvk key delay
  | Op.watch gvk name cb, b => b.Watch x gvk name cb

/-- What one finished call did: the operation, the state it started from,
the calls it made into collaborators, and the error it returned. -/
structure Record (ω : Type) where
  op : Op
  before : Backend ω
  calls : List Call
  err : Option GoError

/-- Is the record a `Start` that returned nil? -/
def Record.startOk (r : Record ω) : Bool :=
  r.op.isStart && r.err.isNone

/-- Run operations one after another, each finishing before the next
begins; returns the record of every call and the final state. -/
def runOps (x : Ext ω) : List Op → Backend ω → List (Record ω) × Backend ω
  | [], b => ([], b)
  | op :: ops, b =>
    let r := op.run x b
    let rest := runOps x ops r.1
    (⟨op, b, r.1.trace.drop b.trace.length, r.2⟩ :: rest.1, rest.2)

/-! ### Concurrent calls of `Start` -/

/-- The program points of `Start` between two accesses to shared state. -/
inductive StartPC where
  | factoryStart
  | waitForCacheSync
  | loadStarted
  | startPurge
  | deferred (err : Option GoError)
  | returned (err : Option GoError)
deriving DecidableEq, Repr

/-- One atomic step of a goroutine executing `Start`: one call into a
collaborator, or one `Load` or `Store` on the atomic flag. -/
def stepStart (x : Ext ω) : StartPC → Backend ω → StartPC × Backend ω
  | StartPC.factoryStart, b =>
    match callFactoryStart x 5 b with
    | (some err, b1) => (StartPC.deferred (some err), b1)
    | (none, b1) => (StartPC.waitForCacheSync, b1)
  | StartPC.waitForCacheSync, b =>
    match callWaitForCacheSync x b with
    | (false, b1) => (StartPC.deferred (some syncError), b1)
    | (true, b1) => (StartPC.loadStarted, b1)
  | StartPC.loadStarted, b =>
    if !b.started then (StartPC.startPurge, b) else (StartPC.deferred none, b)
  | StartPC.startPurge, b => (StartPC.deferred none, callStartPurge x b)
  | StartPC.deferred err, b => (StartPC.returned err, startDeferred err b)
  | StartPC.returned err, b => (StartPC.returned err, b)

/-- Run one goroutine alone for `n` steps. -/
def runStart (x : Ext ω) : Nat → StartPC × Backend ω → StartPC × Backend ω
  | 0, s => s
  | n + 1, s => runStart x n (stepStart x s.1 s.2)

/-- Goroutines executing `Start` on one shared `Backend`: the program point
of each, and the shared state. -/
structure Conc (ω : Type) where
  pcs : List StartPC
  shared : Backend ω

/-- Let goroutine `i` take its next step. -/
def Conc.step (x : Ext ω) (i : Nat) (s : Conc ω) : Conc ω :=
  match s.pcs.get? i with
  | none => s
  | some pc =>
    let r := stepStart x pc s.shared
    { pcs := s.pcs.set i r.1, shared := r.2 }

/-- Run a schedule: the goroutine to step at each instant. -/
def Conc.run (x : Ext ω) (schedule : List Nat) (s : Conc ω) : Conc ω :=
  schedule.foldl (fun s i => s.step x i) s

/-- The number of goroutines that start from the entry of `Start`. -/
def Conc.init (n : Nat) (b : Backend ω) : Conc ω :=
  { pcs := List.replicate n StartPC.factoryStart, shared := b }

end operations

/-! ## A sample environment

Concrete collaborators on which the operations can be evaluated. The world
is the list of index names registered with the cache. -/

namespace Sample

/-- A `fields.Fields` with one field `"f"` whose value is `"v"`. -/
def fieldsFV : Fields :=
  { FieldNames := [[102]], Get := fun field => if field = [102] then [118] else [] }

/-- An object of namespace `"ns"` exposing `fieldsFV`. -/
def obj : Obj := { asFields := some fieldsFV, asObject := some ⟨[110, 115]⟩ }

/-- The kind `v1, Kind=Pod`. -/
def gvk : GVK := { Group := [], Version := [118, 49], Kind := [80, 111, 100] }

/-- The key `"ns/name"`. -/
def nsName : GoString := [110, 115, 47, 110, 97, 109, 101]

/-- A callback that returns its object. -/
def cb : Callback := fun _ _ o => (o, none)

/-- Collaborators whose calls all succeed, except that the cache rejects an
index name that is already registered. -/
def ext : Ext (List GoString) where
  TriggerPrefix := [95, 116, 32]
  keyFunc := fun ns name => if ns = [] then name else ns ++ [47] ++ name
  gvkString := fun g =>
    g.Group ++ [47] ++ g.Version ++ [44, 32, 75, 105, 110, 100, 61] ++ g.Kind
  factoryStart := fun _ w => (none, w)
  WaitForCacheSync := fun w => (true, w)
  startPurge := fun w => w
  ForKind := fun _ w => (Except.ok 7, w)
  EnqueueKey := fun _ _ w => w
  EnqueueAfter := fun _ _ _ _ w => w
  schemeNew := fun _ w => (Except.ok obj, w)
  GetInformerForKind := fun _ w => (Except.ok 3, w)
  AddIndexers := fun _ indexers w =>
    if (indexers.entries.map Prod.fst).any (fun n => decide (n ∈ w)) then
      (some "indexer conflict", w)
    else (none, w ++ indexers.entries.map Prod.fst)
  RegisterHandler := fun _ _ _ w => w
  controllerStart := fun _ _ w => (none, w)

/-- The sample collaborators with a cache that ignores an index name it
already has. -/
def extLenient : Ext (List GoString) :=
  { ext with
    AddIndexers := fun _ indexers w =>
      (none, w ++ (indexers.entries.map Prod.fst).filter (fun n => decide (n ∉ w))) }

/-- The sample collaborators with a controller factory that cannot start. -/
def extNoFactory : Ext (List GoString) :=
  { ext with factoryStart := fun _ w => (some "factory failed", w) }

/-- The sample collaborators with a cache that never syncs. -/
def extNoSync : Ext (List GoString) :=
  { ext with WaitForCacheSync := fun w => (false, w) }

/-- The sample collaborators with a factory that knows no kind. -/
def extNoKind : Ext (List GoString) :=
  { ext with ForKind := fun _ w => (Except.error "unknown kind", w) }

/-- The sample collaborators with a scheme that cannot create the kind. -/
def extNoScheme : Ext (List GoString) :=
  { ext with schemeNew := fun _ w => (Except.error "no kind registered", w) }

/-- A map with the keys 3, 1, 2 visited in that order. -/
def numbers : typed.OrdMap Nat String := ⟨[(3, "c"), (1, "a"), (2, "b")], by decide⟩

/-- A `map[float64]int` holding the keys NaN, 1.5, NaN and -2, visited in
that order. -/
def floats : typed.OrdMap (typed.FloatKey ℚ) Int :=
  ⟨[(typed.FloatKey.nan, 1), (typed.FloatKey.num (3 / 2), 2), (typed.FloatKey.nan, 3),
      (typed.FloatKey.num (-2), 4)],
    by simp [typed.GoOrdered.eq, typed.FloatKey.eq]; norm_num⟩

/-- A `map[float64]int` without NaN: the keys 1.5, -2 and 1. -/
def floatsNoNaN : typed.OrdMap (typed.FloatKey ℚ) Int :=
  ⟨[(typed.FloatKey.num (3 / 2), 2), (typed.FloatKey.num (-2), 4), (typed.FloatKey.num 1, 5)],
    by simp [typed.GoOrdered.eq, typed.FloatKey.eq]; norm_num⟩

end Sample

/-! ## Properties of `pkg/typed/map.go` -/

namespace typed

variable {K V : Type}

theorem foldl_append_singleton {α β : Type} (f : α → β) (l : List α) (acc : List β) :
    l.foldl (fun result e => result ++ [f e]) acc = acc ++ l.map f := by
  induction l generalizing acc with
  | nil => simp
  | cons a l ih => simp [ih]

theorem sink_perm (less : K → K → Bool) (x : K) (l : List K) :
    (sink less x l).Perm (x :: l) := by
  induction l with
  | nil => simp [sink]
  | cons p ps ih =>
    unfold sink
    split
    · exact (List.Perm.cons p ih).trans (List.Perm.swap x p ps)
    · exact List.Perm.refl _

theorem foldl_sink_perm (less : K → K → Bool) (l acc : List K) :
    (l.foldl (fun sorted x => sink less x sorted) acc).Perm (acc ++ l) := by
  induction l generalizing acc with
  | nil => simp
  | cons x l ih =>
    rw [List.foldl_cons]
    refine (ih (sink less x acc)).trans ?_
    refine ((sink_perm less x acc).append_right l).trans ?_
    have hmid : (acc ++ x :: l).Perm (x :: (acc ++ l)) := List.perm_middle
    simpa using hmid.symm

theorem sortSlice_perm (less : K → K → Bool) (l : List K) : (sortSlice less l).Perm l := by
  unfold sortSlice
  exact (List.reverse_perm _).trans (by simpa using foldl_sink_perm less l [])

/-- Of two keys that are comparable, the smaller is not above the larger. -/
theorem GoOrdered_asymm [GoOrdered K] (a b : K) (h : GoOrdered.lt a b = true) :
    GoOrdered.lt b a = false := by
  cases hba : GoOrdered.lt b a with
  | false => rfl
  | true =>
    have := GoOrdered.lt_tr a b a h hba
    rw [GoOrdered.lt_irr] at this
    exact absurd this (by decide)

/-- Among keys that are not NaN, "not below" is transitive. -/
theorem GoOrdered_not_lt_trans [GoOrdered K] (x p q : K)
    (hx : GoOrdered.eq x x = true) (hp : GoOrdered.eq p p = true)
    (h1 : GoOrdered.lt x p = false) (h2 : GoOrdered.lt p q = false) :
    GoOrdered.lt x q = false := by
  cases hxq : GoOrdered.lt x q with
  | false => rfl
  | true =>
    rcases GoOrdered.lt_total x p hx hp with h | h | h
    · rw [h1] at h
      exact absurd h (by decide)
    · subst h
      rw [h2] at hxq
      exact absurd hxq (by decide)
    · have := GoOrdered.lt_tr p x q h hxq
      rw [h2] at this
      exact absurd this (by decide)

/-- Sinking a key that is not NaN into a descending list of such keys keeps
it descending. -/
theorem sink_desc [GoOrdered K] (x : K) (l : List K)
    (hx : GoOrdered.eq x x = true) (hl : ∀ p ∈ l, GoOrdered.eq p p = true)
    (hd : l.Pairwise (fun p q => GoOrdered.lt p q = false)) :
    (sink (fun a b => GoOrdered.lt a b) x l).Pairwise (fun p q => GoOrdered.lt p q = false) := by
  induction l with
  | nil => simp [sink]
  | cons p ps ih =>
    obtain ⟨hp, hps⟩ := List.pairwise_cons.mp hd
    have hpp : GoOrdered.eq p p = true := hl p (List.mem_cons_self _ _)
    unfold sink
    split
    · rename_i hxp
      refine List.pairwise_cons.mpr ⟨?_, ih (fun q hq => hl q (List.mem_cons_of_mem _ hq)) hps⟩
      intro q hq
      rcases List.mem_cons.mp ((sink_perm _ x ps).subset hq) with rfl | hq
      · exact GoOrdered_asymm _ _ hxp
      · exact hp q hq
    · rename_i hxp
      have hxp : GoOrdered.lt x p = false := by simpa using hxp
      refine List.pairwise_cons.mpr ⟨?_, hd⟩
      intro q hq
      rcases List.mem_cons.mp hq with rfl | hq
      · exact hxp
      · exact GoOrdered_not_lt_trans x p q hx hpp hxp (hp q hq)

theorem foldl_sink_desc [GoOrdered K] (l acc : List K)
    (hl : ∀ p ∈ l, GoOrdered.eq p p = true) (hacc : ∀ p ∈ acc, GoOrdered.eq p p = true)
    (hd : acc.Pairwise (fun p q => GoOrdered.lt p q = false)) :
    (l.foldl (fun sorted x => sink (fun a b => GoOrdered.lt a b) x sorted) acc).Pairwise
      (fun p q => GoOrdered.lt p q = false) := by
  induction l generalizing acc with
  | nil => simpa using hd
  | cons x l ih =>
    rw [List.foldl_cons]
    have hx : GoOrdered.eq x x = true := hl x (List.mem_cons_self _ _)
    refine ih _ (fun p hp => hl p (List.mem_cons_of_mem _ hp)) ?_ (sink_desc x acc hx hacc hd)
    intro p hp
    rcases List.mem_cons.mp ((sink_perm _ x acc).subset hp) with rfl | hp
    · exact hx
    · exact hacc p hp

/-- On keys none of which is NaN, `sort.Slice` with `<` leaves no key below
an earlier one. -/
theorem sortSlice_sorted [GoOrdered K] (l : List K) (hl : ∀ p ∈ l, GoOrdered.eq p p = true) :
    (sortSlice (fun a b => GoOrdered.lt a b) l).Pairwise
      (fun a b => GoOrdered.lt b a = false) := by
  unfold sortSlice
  rw [List.pairwise_reverse]
  exact foldl_sink_desc l [] hl (by simp) List.Pairwise.nil

/-- The keys of a map without NaN keys are pairwise different. -/
theorem OrdMap_keys_nodup [GoOrdered K] (data : OrdMap K V)
    (hnan : ∀ e ∈ data.entries, GoOrdered.eq e.1 e.1 = true) :
    (data.entries.map Prod.fst).Nodup := by
  rw [List.Nodup, List.pairwise_map]
  have h := data.distinct
  have hall : data.entries.Pairwise (fun a _ => GoOrdered.eq a.1 a.1 = true) :=
    List.pairwise_of_forall_mem_list (fun a ha _ _ => hnan a ha)
  refine (h.and hall).imp ?_
  intro a b hab heq
  rw [← heq, hab.2] at hab
  exact absurd hab.1 (by decide)

theorem SortedKeys_perm [GoOrdered K] (data : OrdMap K V) :
    (SortedKeys data).Perm (data.entries.map Prod.fst) := by
  unfold SortedKeys
  rw [foldl_append_singleton]
  simpa using sortSlice_perm _ (data.entries.map Prod.fst)

theorem SortedKeys_nodup [GoOrdered K] (data : OrdMap K V)
    (hnan : ∀ e ∈ data.entries, GoOrdered.eq e.1 e.1 = true) : (SortedKeys data).Nodup :=
  (SortedKeys_perm data).nodup_iff.mpr (OrdMap_keys_nodup data hnan)

theorem SortedKeys_strict [GoOrdered K] (data : OrdMap K V)
    (hnan : ∀ e ∈ data.entries, GoOrdered.eq e.1 e.1 = true) :
    (SortedKeys data).Pairwise (fun a b => GoOrdered.lt a b = true) := by
  have hkeys : ∀ k ∈ SortedKeys data, GoOrdered.eq k k = true := by
    intro k hk
    obtain ⟨e, he, rfl⟩ := List.mem_map.mp ((SortedKeys_perm data).subset hk)
    exact hnan e he
  have h1 : (SortedKeys data).Pairwise (fun a b => GoOrdered.lt b a = false) := by
    unfold SortedKeys
    rw [foldl_append_singleton]
    refine sortSlice_sorted _ ?_
    intro p hp
    obtain ⟨v, hv⟩ : ∃ v, (p, v) ∈ data.entries := by simpa using hp
    exact hnan (p, v) hv
  have h2 : (SortedKeys data).Pairwise (· ≠ ·) := SortedKeys_nodup data hnan
  have h3 : (SortedKeys data).Pairwise
      (fun a b => GoOrdered.eq a a = true ∧ GoOrdered.eq b b = true) :=
    List.pairwise_of_forall_mem_list (fun a ha b hb => ⟨hkeys a ha, hkeys b hb⟩)
  refine ((h1.and h2).and h3).imp ?_
  intro a b h
  rcases GoOrdered.lt_total a b h.2.1 h.2.2 with hlt | heq | hgt
  · exact hlt
  · exact absurd heq h.1.2
  · rw [h.1.1] at hgt
    exact absurd hgt (by decide)

theorem Sorted_eq_map [GoOrdered K] [Inhabited V] (data : OrdMap K V) :
    Sorted data = (SortedKeys data).map (fun key => ⟨key, data.get key⟩) := by
  simp [Sorted, foldl_append_singleton]

theorem find_of_distinct [GoOrdered K] (l : List (K × V))
    (hnan : ∀ e ∈ l, GoOrdered.eq e.1 e.1 = true) (h : (l.map Prod.fst).Nodup)
    (k : K) (v : V) (hm : (k, v) ∈ l) :
    l.find? (fun e => GoOrdered.eq e.1 k) = some (k, v) := by
  induction l with
  | nil => simp at hm
  | cons e l ih =>
    simp only [List.map_cons, List.nodup_cons] at h
    rcases List.mem_cons.mp hm with rfl | hm
    · have := hnan (k, v) (List.mem_cons_self _ _)
      simp [this]
    · have hne : GoOrdered.eq e.1 k = false := by
        cases heq : GoOrdered.eq e.1 k with
        | false => rfl
        | true =>
          have he := GoOrdered.eq_sound _ _ heq
          exact absurd (he ▸ List.mem_map_of_mem Prod.fst hm) h.1
      rw [List.find?_cons_of_neg _ (by simp [hne])]
      exact ih (fun e he => hnan e (List.mem_cons_of_mem _ he)) h.2 hm

theorem OrdMap_get_of_mem [GoOrdered K] [Inhabited V] (data : OrdMap K V)
    (hnan : ∀ e ∈ data.entries, GoOrdered.eq e.1 e.1 = true)
    (k : K) (v : V) (hm : (k, v) ∈ data.entries) : data.get k = v := by
  simp [OrdMap.get, find_of_distinct data.entries hnan (OrdMap_keys_nodup data hnan) k v hm]

/-- No key of a map whose key order is linear is NaN. -/
theorem no_nan_of_linearOrder [LinearOrder K] (data : OrdMap K V) :
    ∀ e ∈ data.entries, GoOrdered.eq e.1 e.1 = true := by
  intro e _
  exact decide_eq_true rfl

/-- On integer and string key types, whose order is linear, `SortedKeys`
is a strictly ascending rearrangement of the keys with no condition on the
map. -/
theorem SortedKeys_linearOrder [LinearOrder K] (data : OrdMap K V) :
    (SortedKeys data).Pairwise (· < ·)
    ∧ (SortedKeys data).Nodup
    ∧ (SortedKeys data).Perm (data.entries.map Prod.fst) := by
  refine ⟨?_, SortedKeys_nodup data (no_nan_of_linearOrder data), SortedKeys_perm data⟩
  refine (SortedKeys_strict data (no_nan_of_linearOrder data)).imp ?_
  intro a b h
  exact of_decide_eq_true h

/-- C10, as stated, fails on a floating-point key type: for the map with
keys NaN, 1.5, NaN and -2 visited in that order, `SortedKeys` returns the
keys as visited, which is neither ascending nor duplicate-free, and `Sorted`
gives both NaN entries the zero value, so the map's entries under NaN are
not in the result. -/
theorem Sorted_nan_not_ascending :
    SortedKeys Sample.floats
        = [FloatKey.nan, FloatKey.num (3 / 2), FloatKey.nan, FloatKey.num (-2)]
    ∧ ¬ (SortedKeys Sample.floats).Pairwise (fun a b => GoOrdered.lt a b = true)
    ∧ ¬ (SortedKeys Sample.floats).Nodup
    ∧ Sorted Sample.floats
        = [⟨FloatKey.nan, 0⟩, ⟨FloatKey.num (3 / 2), 2⟩, ⟨FloatKey.nan, 0⟩,
            ⟨FloatKey.num (-2), 4⟩]
    ∧ (FloatKey.nan, (1 : Int)) ∈ Sample.floats.entries
    ∧ (⟨FloatKey.nan, 1⟩ : Entry (FloatKey ℚ) Int) ∉ Sorted Sample.floats := by
  have hkeys : SortedKeys Sample.floats
      = [FloatKey.nan, FloatKey.num (3 / 2), FloatKey.nan, FloatKey.num (-2)] := by
    simp [SortedKeys, Sample.floats, sortSlice, sink, GoOrdered.lt, FloatKey.lt]
  have hsorted : Sorted Sample.floats
      = [⟨FloatKey.nan, 0⟩, ⟨FloatKey.num (3 / 2), 2⟩, ⟨FloatKey.nan, 0⟩,
          ⟨FloatKey.num (-2), 4⟩] := by
    rw [Sorted_eq_map, hkeys]
    simp [OrdMap.get, Sample.floats, GoOrdered.eq, FloatKey.eq]
    norm_num
  refine ⟨hkeys, ?_, ?_, hsorted, ?_, ?_⟩
  · rw [hkeys]
    simp [GoOrdered.lt, FloatKey.lt]
  · rw [hkeys]
    simp
  · simp [Sample.floats]
  · rw [hsorted]
    simp

/-- C10, amended: for every map with an ordered key type none of whose keys
is NaN (every key is `==` to itself, as always holds for integer and string
keys), `Sorted` returns exactly one entry per key of the map, in strictly
ascending key order, each entry carrying the value the map holds at its key;
its keys are `SortedKeys` of the map, a duplicate-free strictly ascending
list that is a rearrangement of the map's keys; the empty map gives empty
results. -/
theorem Sorted_spec [GoOrdered K] [Inhabited V] (data : OrdMap K V)
    (hnan : ∀ e ∈ data.entries, GoOrdered.eq e.1 e.1 = true) :
    (Sorted data).map Entry.Key = SortedKeys data
    ∧ (SortedKeys data).Pairwise (fun a b => GoOrdered.lt a b = true)
    ∧ (SortedKeys data).Nodup
    ∧ (SortedKeys data).Perm (data.entries.map Prod.fst)
    ∧ (∀ k, k ∈ SortedKeys data ↔ ∃ v, (k, v) ∈ data.entries)
    ∧ ((Sorted data).map Entry.Key).Pairwise (fun a b => GoOrdered.lt a b = true)
    ∧ (Sorted data).length = data.entries.length
    ∧ (∀ e, e ∈ Sorted data ↔ (e.Key, e.Value) ∈ data.entries)
    ∧ (∀ e ∈ Sorted data, e.Value = data.get e.Key)
    ∧ Sorted (OrdMap.empty : OrdMap K V) = []
    ∧ SortedKeys (OrdMap.empty : OrdMap K V) = [] := by
  have hkeys : (Sorted data).map Entry.Key = SortedKeys data := by
    rw [Sorted_eq_map, List.map_map]
    exact (List.map_congr_left (fun _ _ => rfl)).trans (List.map_id _)
  have hmem : ∀ k, k ∈ SortedKeys data ↔ ∃ v, (k, v) ∈ data.entries := by
    intro k
    rw [(SortedKeys_perm data).mem_iff]
    simp
  refine ⟨hkeys, SortedKeys_strict data hnan, SortedKeys_nodup data hnan, SortedKeys_perm data,
    hmem, ?_, ?_, ?_, ?_, rfl, rfl⟩
  · rw [hkeys]
    exact SortedKeys_strict data hnan
  · rw [Sorted_eq_map, List.length_map, (SortedKeys_perm data).length_eq, List.length_map]
  · intro e
    rw [Sorted_eq_map, List.mem_map]
    constructor
    · rintro ⟨k, hk, rfl⟩
      obtain ⟨v, hv⟩ := (hmem k).mp hk
      simpa [OrdMap_get_of_mem data hnan k v hv] using hv
    · intro he
      refine ⟨e.Key, (hmem e.Key).mpr ⟨e.Value, he⟩, ?_⟩
      rw [OrdMap_get_of_mem data hnan e.Key e.Value he]
  · intro e he
    rw [Sorted_eq_map, List.mem_map] at he
    obtain ⟨k, _, rfl⟩ := he
    rfl

/-- C10, amended, on sample maps: the integer keys 3, 1, 2 come out as 1,
2, 3 with their values, and the floating-point keys 1.5, -2, 1, none of them
NaN, come out strictly ascending. -/
theorem Sorted_spec_witness :
    ((Sorted Sample.numbers).map Entry.Key = [1, 2, 3]
      ∧ (∀ e ∈ Sorted Sample.numbers, e.Value = Sample.numbers.get e.Key)
      ∧ Sorted Sample.numbers = [⟨1, "a"⟩, ⟨2, "b"⟩, ⟨3, "c"⟩])
    ∧ (SortedKeys Sample.floatsNoNaN).Pairwise (fun a b => GoOrdered.lt a b = true) :=
  ⟨⟨(Sorted_spec Sample.numbers (by decide)).1.trans (by decide),
      (Sorted_spec Sample.numbers (by decide)).2.2.2.2.2.2.2.2.1, by decide⟩,
    (Sorted_spec Sample.floatsNoNaN
      (by simp [Sample.floatsNoNaN, GoOrdered.eq, FloatKey.eq])).2.1⟩

end typed

/-! ## Properties of `Backend.Trigger` -/

section trigger

variable {ω : Type}

theorem stringsIndex_slash (key : GoString) :
    stringsIndex key slash =
      if (47 : UInt8) ∈ key then some (key.takeWhile (fun c => decide (c ≠ 47))).length
      else none := by
  induction key with
  | nil => simp [stringsIndex, slash, List.isPrefixOf]
  | cons a t ih =>
    unfold stringsIndex
    by_cases ha : a = 47
    · subst ha
      simp [slash, List.isPrefixOf]
    · have h1 : ¬ (47 : UInt8) = a := fun h => ha h.symm
      simp only [slash] at ih
      simp only [slash, List.isPrefixOf, beq_iff_eq, h1, Bool.and_true, Bool.false_eq_true,
        if_false, ih, List.mem_cons, false_or]
      by_cases ht : (47 : UInt8) ∈ t
      · simp [ht, List.takeWhile_cons, ha]
      · simp [ht]

theorem stringsCut_no_slash (key : GoString) (h : (47 : UInt8) ∉ key) :
    stringsCut key slash = (key, [], false) := by
  simp [stringsCut, stringsIndex_slash, h]

theorem take_length_takeWhile {α : Type} (p : α → Bool) (l : List α) :
    l.take (l.takeWhile p).length = l.takeWhile p := by
  induction l with
  | nil => rfl
  | cons a l ih =>
    by_cases ha : p a = true
    · simp [List.takeWhile_cons, ha, ih]
    · simp [List.takeWhile_cons, ha]

theorem drop_length_takeWhile {α : Type} (p : α → Bool) (l : List α) :
    l.drop (l.takeWhile p).length = l.dropWhile p := by
  induction l with
  | nil => rfl
  | cons a l ih =>
    by_cases ha : p a = true
    · simp [List.takeWhile_cons, List.dropWhile_cons, ha, ih]
    · simp [List.takeWhile_cons, List.dropWhile_cons, ha]

theorem stringsCut_slash (key : GoString) (h : (47 : UInt8) ∈ key) :
    stringsCut key slash =
      (key.takeWhile (fun c => decide (c ≠ 47)),
        (key.dropWhile (fun c => decide (c ≠ 47))).drop 1, true) := by
  unfold stringsCut
  rw [stringsIndex_slash, if_pos h]
  show (_, _, true) = _
  rw [take_length_takeWhile, ← List.drop_drop, drop_length_takeWhile]
  rfl

theorem takeWhile_no_slash (key : GoString) :
    (47 : UInt8) ∉ key.takeWhile (fun c => decide (c ≠ 47)) := by
  intro h
  simpa using List.mem_takeWhile_imp h

theorem split_at_slash (key : GoString) (h : (47 : UInt8) ∈ key) :
    key.takeWhile (fun c => decide (c ≠ 47)) ++ slash
      ++ (key.dropWhile (fun c => decide (c ≠ 47))).drop 1 = key := by
  have hsplit := List.takeWhile_append_dropWhile (fun c => decide (c ≠ (47 : UInt8))) key
  have hd : ∃ rest, key.dropWhile (fun c => decide (c ≠ 47)) = 47 :: rest := by
    cases hdw : key.dropWhile (fun c => decide (c ≠ 47)) with
    | nil =>
      rw [hdw, List.append_nil] at hsplit
      have h2 := takeWhile_no_slash key
      rw [hsplit] at h2
      exact absurd h h2
    | cons a rest =>
      have := List.head_dropWhile_not (fun c => decide (c ≠ (47 : UInt8))) key
        (by rw [hdw]; simp)
      simp only [hdw, List.head_cons] at this
      have ha : a = 47 := by simpa using this
      exact ⟨rest, by rw [ha]⟩
  obtain ⟨rest, hrest⟩ := hd
  rw [hrest] at hsplit ⊢
  simpa [slash] using hsplit

/-- C1: when `ForKind` succeeds and `delay` is not greater than zero,
`Trigger` returns nil and, after the `ForKind` lookup, makes exactly one call:
`EnqueueKey(router.TriggerPrefix + key)`; that is its only queue operation.
The enqueued string starts with the reserved prefix and what follows the
prefix is the caller's key. -/
theorem Trigger_immediate (x : Ext ω) (gvk : GVK) (key : GoString) (delay : Int)
    (b : Backend ω) (c : Controller)
    (hk : (x.ForKind gvk b.world).1 = Except.ok c) (hd : ¬ delay > 0) :
    (b.Trigger x gvk key delay).2 = none
    ∧ (b.Trigger x gvk key delay).1.trace
        = b.trace ++ [Call.forKind gvk, Call.enqueueKey c (x.TriggerPrefix ++ key)]
    ∧ ((b.Trigger x gvk key delay).1.trace.drop b.trace.length).filter Call.isQueueOp
        = [Call.enqueueKey c (x.TriggerPrefix ++ key)]
    ∧ (b.Trigger x gvk key delay).1.world
        = x.EnqueueKey c (x.TriggerPrefix ++ key) (x.ForKind gvk b.world).2
    ∧ (b.Trigger x gvk key delay).1.started = b.started
    ∧ x.TriggerPrefix <+: x.TriggerPrefix ++ key
    ∧ (x.TriggerPrefix ++ key).drop x.TriggerPrefix.length = key := by
  have h : b.Trigger x gvk key delay
      = (callEnqueueKey x c (x.TriggerPrefix ++ key) (callForKind x gvk b).2, none) := by
    simp [Backend.Trigger, callForKind, hk, hd]
  rw [h]
  refine ⟨rfl, ?_, ?_, rfl, rfl, List.prefix_append _ _, List.drop_left _ _⟩
  · simp [callEnqueueKey, callForKind]
  · simp [callEnqueueKey, callForKind, Call.isQueueOp]

/-- C1 on the sample collaborators: an immediate trigger of `"ns/name"`. -/
theorem Trigger_immediate_witness :
    (Backend.Trigger Sample.ext Sample.gvk Sample.nsName 0 (newBackend [])).2 = none
    ∧ (Backend.Trigger Sample.ext Sample.gvk Sample.nsName 0 (newBackend [])).1.trace
        = [Call.forKind Sample.gvk,
            Call.enqueueKey 7 [95, 116, 32, 110, 115, 47, 110, 97, 109, 101]] :=
  have h := Trigger_immediate Sample.ext Sample.gvk Sample.nsName 0 (newBackend []) 7 rfl
    (by decide)
  ⟨h.1, h.2.1⟩

/-- C2: when `ForKind` succeeds and `delay > 0`, `Trigger` returns nil and,
after the `ForKind` lookup, makes exactly one call: `EnqueueAfter(ns, name,
delay)` with the caller's delay; that is its only queue operation. If the key
has no `"/"` then `ns` is empty and `name` is the key; otherwise `ns` is the
part before the first `"/"` and `name` the part after it, so `ns` has no
`"/"` and `ns + "/" + name` is the key. -/
theorem Trigger_delayed (x : Ext ω) (gvk : GVK) (key : GoString) (delay : Int)
    (b : Backend ω) (c : Controller)
    (hk : (x.ForKind gvk b.world).1 = Except.ok c) (hd : delay > 0) :
    ∃ ns name : GoString,
      (b.Trigger x gvk key delay).2 = none
      ∧ (b.Trigger x gvk key delay).1.trace
          = b.trace ++ [Call.forKind gvk, Call.enqueueAfter c ns name delay]
      ∧ ((b.Trigger x gvk key delay).1.trace.drop b.trace.length).filter Call.isQueueOp
          = [Call.enqueueAfter c ns name delay]
      ∧ (b.Trigger x gvk key delay).1.world
          = x.EnqueueAfter c ns name delay (x.ForKind gvk b.world).2
      ∧ (b.Trigger x gvk key delay).1.started = b.started
      ∧ ((47 : UInt8) ∉ key → ns = [] ∧ name = key)
      ∧ ((47 : UInt8) ∈ key →
          ns = key.takeWhile (fun ch => decide (ch ≠ 47))
          ∧ name = (key.dropWhile (fun ch => decide (ch ≠ 47))).drop 1
          ∧ (47 : UInt8) ∉ ns ∧ ns ++ slash ++ name = key) := by
  by_cases hs : (47 : UInt8) ∈ key
  · refine ⟨key.takeWhile (fun ch => decide (ch ≠ 47)),
      (key.dropWhile (fun ch => decide (ch ≠ 47))).drop 1, ?_⟩
    have h : b.Trigger x gvk key delay
        = (callEnqueueAfter x c (key.takeWhile (fun ch => decide (ch ≠ 47)))
            ((key.dropWhile (fun ch => decide (ch ≠ 47))).drop 1) delay
            (callForKind x gvk b).2, none) := by
      simp only [Backend.Trigger, callForKind, hk, hd, if_true, stringsCut_slash key hs]
    rw [h]
    refine ⟨rfl, ?_, ?_, rfl, rfl, fun hn => absurd hs hn,
      fun _ => ⟨rfl, rfl, takeWhile_no_slash key, split_at_slash key hs⟩⟩
    · simp [callEnqueueAfter, callForKind]
    · simp [callEnqueueAfter, callForKind, Call.isQueueOp]
  · refine ⟨[], key, ?_⟩
    have h : b.Trigger x gvk key delay
        = (callEnqueueAfter x c [] key delay (callForKind x gvk b).2, none) := by
      simp only [Backend.Trigger, callForKind, hk, hd, if_true, stringsCut_no_slash key hs]
    rw [h]
    refine ⟨rfl, ?_, ?_, rfl, rfl, fun _ => ⟨rfl, rfl⟩, fun hn => absurd hn hs⟩
    · simp [callEnqueueAfter, callForKind]
    · simp [callEnqueueAfter, callForKind, Call.isQueueOp]

/-- C2 on the sample collaborators: a delayed trigger of `"ns/name"`. -/
theorem Trigger_delayed_witness :
    ∃ ns name : GoString,
      (Backend.Trigger Sample.ext Sample.gvk Sample.nsName 5 (newBackend [])).1.trace
          = [Call.forKind Sample.gvk, Call.enqueueAfter 7 ns name 5]
      ∧ ns = [110, 115] ∧ name = [110, 97, 109, 101] := by
  obtain ⟨ns, name, _, h2, _, _, _, _, h7⟩ :=
    Trigger_delayed Sample.ext Sample.gvk Sample.nsName 5 (newBackend []) 7 rfl (by decide)
  obtain ⟨hns, hname, _, _⟩ := h7 (by decide)
  exact ⟨ns, name, h2, hns.trans (by decide), hname.trans (by decide)⟩

end trigger

/-! ## Properties of `Backend.Start` -/

section start

variable {ω : Type}

theorem Start_factory_error (x : Ext ω) (b : Backend ω) (err : GoError)
    (h : (x.factoryStart 5 b.world).1 = some err) :
    b.Start x = ({ b with world := (x.factoryStart 5 b.world).2,
                          trace := b.trace ++ [Call.factoryStart 5] }, some err) := by
  simp [Backend.Start, callFactoryStart, h, startDeferred]

theorem Start_sync_false (x : Ext ω) (b : Backend ω)
    (h1 : (x.factoryStart 5 b.world).1 = none)
    (h2 : (x.WaitForCacheSync (x.factoryStart 5 b.world).2).1 = false) :
    b.Start x = ({ b with world := (x.WaitForCacheSync (x.factoryStart 5 b.world).2).2,
                          trace := b.trace ++ [Call.factoryStart 5, Call.waitForCacheSync] },
                  some syncError) := by
  simp [Backend.Start, callFactoryStart, callWaitForCacheSync, h1, h2, startDeferred]

theorem Start_first (x : Ext ω) (b : Backend ω)
    (h1 : (x.factoryStart 5 b.world).1 = none)
    (h2 : (x.WaitForCacheSync (x.factoryStart 5 b.world).2).1 = true)
    (h3 : b.started = false) :
    b.Start x = ({ started := true
                   world := x.startPurge (x.WaitForCacheSync (x.factoryStart 5 b.world).2).2
                   trace := b.trace ++ [Call.factoryStart 5, Call.waitForCacheSync,
                     Call.startPurge] }, none) := by
  simp [Backend.Start, callFactoryStart, callWaitForCacheSync, callStartPurge, h1, h2, h3,
    startDeferred]

theorem Start_again (x : Ext ω) (b : Backend ω)
    (h1 : (x.factoryStart 5 b.world).1 = none)
    (h2 : (x.WaitForCacheSync (x.factoryStart 5 b.world).2).1 = true)
    (h3 : b.started = true) :
    b.Start x = ({ started := true
                   world := (x.WaitForCacheSync (x.factoryStart 5 b.world).2).2
                   trace := b.trace ++ [Call.factoryStart 5, Call.waitForCacheSync] },
                  none) := by
  simp [Backend.Start, callFactoryStart, callWaitForCacheSync, h1, h2, h3, startDeferred]

/-- The four ways a call of `Start` can go. -/
theorem Start_cases (x : Ext ω) (b : Backend ω) :
    (∃ err, (x.factoryStart 5 b.world).1 = some err)
    ∨ ((x.factoryStart 5 b.world).1 = none
        ∧ (x.WaitForCacheSync (x.factoryStart 5 b.world).2).1 = false)
    ∨ ((x.factoryStart 5 b.world).1 = none
        ∧ (x.WaitForCacheSync (x.factoryStart 5 b.world).2).1 = true ∧ b.started = false)
    ∨ ((x.factoryStart 5 b.world).1 = none
        ∧ (x.WaitForCacheSync (x.factoryStart 5 b.world).2).1 = true ∧ b.started = true) := by
  cases h1 : (x.factoryStart 5 b.world).1 with
  | some err => exact Or.inl ⟨err, rfl⟩
  | none =>
    cases h2 : (x.WaitForCacheSync (x.factoryStart 5 b.world).2).1 with
    | false => exact Or.inr (Or.inl ⟨rfl, rfl⟩)
    | true =>
      cases h3 : b.started with
      | false => exact Or.inr (Or.inr (Or.inl ⟨rfl, rfl, rfl⟩))
      | true => exact Or.inr (Or.inr (Or.inr ⟨rfl, rfl, rfl⟩))

/-- C4: `Start` returns nil exactly when the factory's `Start` returned nil
and the cache-sync barrier, waited on after it, reported true; then the flag
is true afterwards. If the factory fails its error is returned and the
barrier is not waited on; if the barrier reports false a non-nil error is
returned; in both failure cases the flag keeps its value and `startPurge` is
not called. -/
theorem Start_spec (x : Ext ω) (b : Backend ω) :
    ((b.Start x).2 = none ↔
        (x.factoryStart 5 b.world).1 = none
        ∧ (x.WaitForCacheSync (x.factoryStart 5 b.world).2).1 = true)
    ∧ ((b.Start x).2 = none →
        (b.Start x).1.started = true
        ∧ (b.Start x).1.trace = b.trace ++ [Call.factoryStart 5, Call.waitForCacheSync]
            ++ (if b.started then [] else [Call.startPurge]))
    ∧ (∀ err, (x.factoryStart 5 b.world).1 = some err →
        (b.Start x).2 = some err
        ∧ (b.Start x).1.trace = b.trace ++ [Call.factoryStart 5]
        ∧ (b.Start x).1.started = b.started)
    ∧ ((x.factoryStart 5 b.world).1 = none
        → (x.WaitForCacheSync (x.factoryStart 5 b.world).2).1 = false →
        (b.Start x).2 = some syncError
        ∧ (b.Start x).1.trace = b.trace ++ [Call.factoryStart 5, Call.waitForCacheSync]
        ∧ (b.Start x).1.started = b.started)
    ∧ ((b.Start x).2 ≠ none →
        (b.Start x).1.started = b.started
        ∧ ((b.Start x).1.trace.drop b.trace.length).countP Call.isStartPurge = 0) := by
  rcases Start_cases x b with ⟨err, h1⟩ | ⟨h1, h2⟩ | ⟨h1, h2, h3⟩ | ⟨h1, h2, h3⟩
  · rw [Start_factory_error x b err h1]
    simp [h1, Call.isStartPurge]
  · rw [Start_sync_false x b h1 h2]
    simp [h1, h2, Call.isStartPurge]
  · rw [Start_first x b h1 h2 h3]
    simp [h1, h2, h3]
  · rw [Start_again x b h1 h2 h3]
    simp [h1, h2, h3]

/-- C4 on sample collaborators whose cache never syncs: `Start` returns the
sync error after calling the factory and the barrier, and the flag stays
false. -/
theorem Start_spec_witness :
    (Backend.Start Sample.extNoSync (newBackend [])).2 = some syncError
    ∧ (Backend.Start Sample.extNoSync (newBackend [])).1.trace
        = [Call.factoryStart 5, Call.waitForCacheSync]
    ∧ (Backend.Start Sample.extNoSync (newBackend [])).1.started = false :=
  (Start_spec Sample.extNoSync (newBackend [])).2.2.2.1 rfl rfl

/-- Sample collaborators whose factory cannot start: `Start` returns the
factory's error and does not wait on the barrier. -/
theorem Start_factory_failure_sample :
    Backend.Start Sample.extNoFactory (newBackend [])
      = ({ started := false, world := [], trace := [Call.factoryStart 5] },
          some "factory failed") :=
  Start_factory_error Sample.extNoFactory (newBackend []) "factory failed" rfl

end start

/-! ## Properties of `Backend.addIndexer` -/

section indexer

variable {ω : Type}

theorem addIndexer_scheme_error (x : Ext ω) (gvk : GVK) (b : Backend ω) (err : GoError)
    (h : (x.schemeNew gvk b.world).1 = Except.error err) :
    b.addIndexer x gvk = ((callSchemeNew x gvk b).2, some err) := by
  simp [Backend.addIndexer, callSchemeNew, h]

theorem addIndexer_no_fields (x : Ext ω) (gvk : GVK) (b : Backend ω) (o : Obj)
    (h : (x.schemeNew gvk b.world).1 = Except.ok o) (hf : o.asFields = none) :
    b.addIndexer x gvk = ((callSchemeNew x gvk b).2, none) := by
  simp [Backend.addIndexer, callSchemeNew, h, hf]

theorem addIndexer_informer_error (x : Ext ω) (gvk : GVK) (b : Backend ω) (o : Obj)
    (f : Fields) (err : GoError)
    (h : (x.schemeNew gvk b.world).1 = Except.ok o) (hf : o.asFields = some f)
    (hi : (x.GetInformerForKind gvk (x.schemeNew gvk b.world).2).1 = Except.error err) :
    b.addIndexer x gvk = ((callGetInformerForKind x gvk (callSchemeNew x gvk b).2).2, some err) := by
  simp [Backend.addIndexer, callSchemeNew, callGetInformerForKind, h, hf, hi]

theorem addIndexer_registers (x : Ext ω) (gvk : GVK) (b : Backend ω) (o : Obj)
    (f : Fields) (inf : Informer)
    (h : (x.schemeNew gvk b.world).1 = Except.ok o) (hf : o.asFields = some f)
    (hi : (x.GetInformerForKind gvk (x.schemeNew gvk b.world).2).1 = Except.ok inf) :
    b.addIndexer x gvk =
      ((callAddIndexers x inf (buildIndexers x f.FieldNames)
          (callGetInformerForKind x gvk (callSchemeNew x gvk b).2).2).2,
        (callAddIndexers x inf (buildIndexers x f.FieldNames)
          (callGetInformerForKind x gvk (callSchemeNew x gvk b).2).2).1) := by
  simp [Backend.addIndexer, callSchemeNew, callGetInformerForKind, h, hf, hi]

/-- The ways a call of `addIndexer` can go. -/
theorem addIndexer_cases (x : Ext ω) (gvk : GVK) (b : Backend ω) :
    (∃ err, (x.schemeNew gvk b.world).1 = Except.error err)
    ∨ (∃ o, (x.schemeNew gvk b.world).1 = Except.ok o ∧ o.asFields = none)
    ∨ (∃ o f err, (x.schemeNew gvk b.world).1 = Except.ok o ∧ o.asFields = some f
        ∧ (x.GetInformerForKind gvk (x.schemeNew gvk b.world).2).1 = Except.error err)
    ∨ (∃ o f inf, (x.schemeNew gvk b.world).1 = Except.ok o ∧ o.asFields = some f
        ∧ (x.GetInformerForKind gvk (x.schemeNew gvk b.world).2).1 = Except.ok inf) := by
  cases h : (x.schemeNew gvk b.world).1 with
  | error err => exact Or.inl ⟨err, rfl⟩
  | ok o =>
    cases hf : o.asFields with
    | none => exact Or.inr (Or.inl ⟨o, rfl, hf⟩)
    | some f =>
      cases hi : (x.GetInformerForKind gvk (x.schemeNew gvk b.world).2).1 with
      | error err => exact Or.inr (Or.inr (Or.inl ⟨o, f, err, rfl, hf, rfl⟩))
      | ok inf => exact Or.inr (Or.inr (Or.inr ⟨o, f, inf, rfl, hf, rfl⟩))

/-- A call of `addIndexer` leaves the flag alone and only calls the scheme
and the cache. -/
theorem addIndexer_shape (x : Ext ω) (gvk : GVK) (b : Backend ω) :
    (b.addIndexer x gvk).1.started = b.started
    ∧ ∃ d, (b.addIndexer x gvk).1.trace = b.trace ++ d
        ∧ ∀ c ∈ d, c.isStartPurge = false ∧ c.isRegisterHandler = false
            ∧ c.isControllerStart = false ∧ c.isQueueOp = false := by
  rcases addIndexer_cases x gvk b with ⟨err, h⟩ | ⟨o, h, hf⟩ | ⟨o, f, err, h, hf, hi⟩
    | ⟨o, f, inf, h, hf, hi⟩
  · rw [addIndexer_scheme_error x gvk b err h]
    exact ⟨rfl, [Call.schemeNew gvk], rfl, by simp [Call.isStartPurge, Call.isRegisterHandler,
      Call.isControllerStart, Call.isQueueOp]⟩
  · rw [addIndexer_no_fields x gvk b o h hf]
    exact ⟨rfl, [Call.schemeNew gvk], rfl, by simp [Call.isStartPurge, Call.isRegisterHandler,
      Call.isControllerStart, Call.isQueueOp]⟩
  · rw [addIndexer_informer_error x gvk b o f err h hf hi]
    exact ⟨rfl, [Call.schemeNew gvk, Call.getInformerForKind gvk],
      by simp [callGetInformerForKind, callSchemeNew],
      by simp [Call.isStartPurge, Call.isRegisterHandler, Call.isControllerStart,
        Call.isQueueOp]⟩
  · rw [addIndexer_registers x gvk b o f inf h hf hi]
    exact ⟨rfl, [Call.schemeNew gvk, Call.getInformerForKind gvk,
        Call.addIndexers inf (buildIndexers x f.FieldNames)],
      by simp [callAddIndexers, callGetInformerForKind, callSchemeNew],
      by simp [Call.isStartPurge, Call.isRegisterHandler, Call.isControllerStart,
        Call.isQueueOp]⟩

theorem GoMap_lookup_assign {K V : Type} [DecidableEq K] (m : GoMap K V) (k k' : K) (v : V) :
    (m.assign k v).lookup k' = if k' = k then some v else m.lookup k' := by
  unfold GoMap.lookup GoMap.assign
  simp only [List.find?_append]
  by_cases h : k' = k
  · subst h
    have hnone : (m.entries.filter (fun e => decide (e.1 ≠ k'))).find?
        (fun e => decide (e.1 = k')) = none := by
      rw [List.find?_eq_none]
      intro e he
      have := (List.mem_filter.mp he).2
      simpa using this
    rw [hnone]
    simp
  · have hsame : (m.entries.filter (fun e => decide (e.1 ≠ k))).find?
        (fun e => decide (e.1 = k')) = m.entries.find? (fun e => decide (e.1 = k')) := by
      rw [List.find?_filter]
      congr 1
      funext e
      by_cases he : e.1 = k'
      · have : e.1 ≠ k := fun hk => h (he.symm.trans hk)
        simp [he, h]
      · simp [he]
    have hlast : [(k, v)].find? (fun e => decide (e.1 = k')) = none := by
      have : ¬ k = k' := fun hk => h hk.symm
      simp [this]
    rw [hsame, hlast, if_neg h]
    simp

theorem buildIndexers_lookup_aux (x : Ext ω) (names : List GoString)
    (m : GoMap GoString IndexFunc) (f : GoString) :
    (names.foldl (fun indexers field =>
        indexers.assign (fieldColon ++ field) (indexFunc x field)) m).lookup (fieldColon ++ f)
      = if f ∈ names then some (indexFunc x f) else m.lookup (fieldColon ++ f) := by
  induction names generalizing m with
  | nil => simp
  | cons g names ih =>
    rw [List.foldl_cons, ih, GoMap_lookup_assign]
    by_cases h1 : f ∈ names
    · simp [h1]
    · by_cases h2 : f = g
      · subst h2
        simp
      · have h3 : ¬ fieldColon ++ f = fieldColon ++ g := fun h => h2 (List.append_cancel_left h)
        simp [h1, h2, h3]

/-- The map built by `addIndexer` holds, under `"field:" + f`, the index
function of the field `f`. -/
theorem buildIndexers_lookup (x : Ext ω) (names : List GoString) (f : GoString)
    (h : f ∈ names) :
    (buildIndexers x names).lookup (fieldColon ++ f) = some (indexFunc x f) := by
  unfold buildIndexers
  rw [buildIndexers_lookup_aux, if_pos h]

/-- C3: when the kind's type exposes fields, `addIndexer` hands the cache a
map that holds, under `"field:" + f` for every declared field name `f`, an
index function that never returns an error and that, on an object exposing
fields with `v = Get(f)`, returns nothing when `v` is empty, the single key
`keyFunc("", v)` when `v` is not empty and the object has no namespace
accessor or an empty namespace, and the two keys `keyFunc("", v)` and
`keyFunc(ns, v)` when `v` and the object's namespace `ns` are both not empty;
nothing else is in the result. -/
theorem indexer_spec (x : Ext ω) (gvk : GVK) (b : Backend ω) (o0 : Obj) (flds0 : Fields)
    (inf : Informer) (f : GoString)
    (h : (x.schemeNew gvk b.world).1 = Except.ok o0) (hf : o0.asFields = some flds0)
    (hi : (x.GetInformerForKind gvk (x.schemeNew gvk b.world).2).1 = Except.ok inf)
    (hmem : f ∈ flds0.FieldNames) :
    ∃ (idx : GoMap GoString IndexFunc) (fn : IndexFunc),
      (b.addIndexer x gvk).1.trace
          = b.trace ++ [Call.schemeNew gvk, Call.getInformerForKind gvk,
              Call.addIndexers inf idx]
      ∧ idx.lookup (fieldColon ++ f) = some fn
      ∧ (∀ o, (fn o).2 = none)
      ∧ (∀ o, o.asFields = none → (fn o).1 = [])
      ∧ (∀ o fl, o.asFields = some fl → fl.Get f = [] → (fn o).1 = [])
      ∧ (∀ o fl, o.asFields = some fl → fl.Get f ≠ [] →
          (o.asObject = none ∨ ∃ ko, o.asObject = some ko ∧ ko.GetNamespace = []) →
          (fn o).1 = [x.keyFunc [] (fl.Get f)])
      ∧ (∀ o fl ko, o.asFields = some fl → fl.Get f ≠ [] →
          o.asObject = some ko → ko.GetNamespace ≠ [] →
          (fn o).1 = [x.keyFunc [] (fl.Get f), x.keyFunc ko.GetNamespace (fl.Get f)]
          ∧ ∀ k, k ∈ (fn o).1 ↔
              (k = x.keyFunc [] (fl.Get f) ∨ k = x.keyFunc ko.GetNamespace (fl.Get f))) := by
  refine ⟨buildIndexers x flds0.FieldNames, indexFunc x f, ?_,
    buildIndexers_lookup x _ f hmem, ?_, ?_, ?_, ?_, ?_⟩
  · rw [addIndexer_registers x gvk b o0 flds0 inf h hf hi]
    simp [callAddIndexers, callGetInformerForKind, callSchemeNew]
  · intro o
    unfold indexFunc
    split
    · rfl
    · simp only
      split
      · rfl
      · split
        · split <;> rfl
        · rfl
  · intro o ho
    simp [indexFunc, ho]
  · intro o fl ho hv
    simp [indexFunc, ho, hv]
  · intro o fl ho hv hns
    rcases hns with hno | ⟨ko, hko, hempty⟩
    · simp [indexFunc, ho, hv, hno]
    · simp [indexFunc, ho, hv, hko, hempty]
  · intro o fl ko ho hv hko hns
    have hres : (indexFunc x f o).1
        = [x.keyFunc [] (fl.Get f), x.keyFunc ko.GetNamespace (fl.Get f)] := by
      simp [indexFunc, ho, hv, hko, hns]
    refine ⟨hres, fun k => ?_⟩
    rw [hres]
    simp

/-- C3 on the sample collaborators: an object of namespace `"ns"` whose
field `"f"` is `"v"` is indexed under `"v"` and under `"ns/v"`. -/
theorem indexer_spec_witness :
    ∃ (idx : GoMap GoString IndexFunc) (fn : IndexFunc),
      (Backend.addIndexer Sample.ext Sample.gvk (newBackend [])).1.trace
          = [Call.schemeNew Sample.gvk, Call.getInformerForKind Sample.gvk,
              Call.addIndexers 3 idx]
      ∧ idx.lookup [102, 105, 101, 108, 100, 58, 102] = some fn
      ∧ (fn Sample.obj).1 = [[118], [110, 115, 47, 118]] := by
  obtain ⟨idx, fn, h1, h2, _, _, _, _, h7⟩ :=
    indexer_spec Sample.ext Sample.gvk (newBackend []) Sample.obj Sample.fieldsFV 3 [102]
      rfl rfl rfl (by decide)
  exact ⟨idx, fn, h1, h2,
    (h7 Sample.obj Sample.fieldsFV ⟨[110, 115]⟩ rfl (by decide) rfl (by decide)).1⟩

/-- C9, as stated, fails: with a cache that rejects an index name it already
has, the first `addIndexer` for a kind returns nil and the second returns the
cache's error. -/
theorem addIndexer_twice_conflict :
    (Backend.addIndexer Sample.ext Sample.gvk (newBackend [])).2 = none
    ∧ (Backend.addIndexer Sample.ext Sample.gvk
        (Backend.addIndexer Sample.ext Sample.gvk (newBackend [])).1).2
          = some "indexer conflict" := by
  decide

/-- C9, amended: two `addIndexer` calls for a kind whose type exposes the
same field names, on the same informer, make the same `AddIndexers` call
with the same map; the second returns what `AddIndexers` returns and leaves
the cache as `AddIndexers` leaves it. So it returns nil with the cache
unchanged when the cache's `AddIndexers` treats the repeated call so. -/
theorem addIndexer_twice (x : Ext ω) (gvk : GVK) (b : Backend ω) (o o2 : Obj)
    (f f2 : Fields) (inf : Informer)
    (h1 : (x.schemeNew gvk b.world).1 = Except.ok o) (hf1 : o.asFields = some f)
    (hi1 : (x.GetInformerForKind gvk (x.schemeNew gvk b.world).2).1 = Except.ok inf)
    (h2 : (x.schemeNew gvk (b.addIndexer x gvk).1.world).1 = Except.ok o2)
    (hf2 : o2.asFields = some f2) (hn : f2.FieldNames = f.FieldNames)
    (hi2 : (x.GetInformerForKind gvk
      (x.schemeNew gvk (b.addIndexer x gvk).1.world).2).1 = Except.ok inf) :
    (b.addIndexer x gvk).1.trace
        = b.trace ++ [Call.schemeNew gvk, Call.getInformerForKind gvk,
            Call.addIndexers inf (buildIndexers x f.FieldNames)]
    ∧ ((b.addIndexer x gvk).1.addIndexer x gvk).1.trace
        = (b.addIndexer x gvk).1.trace ++ [Call.schemeNew gvk, Call.getInformerForKind gvk,
            Call.addIndexers inf (buildIndexers x f.FieldNames)]
    ∧ ((b.addIndexer x gvk).1.addIndexer x gvk).2
        = (x.AddIndexers inf (buildIndexers x f.FieldNames)
            (x.GetInformerForKind gvk
              (x.schemeNew gvk (b.addIndexer x gvk).1.world).2).2).1
    ∧ ((b.addIndexer x gvk).1.addIndexer x gvk).1.world
        = (x.AddIndexers inf (buildIndexers x f.FieldNames)
            (x.GetInformerForKind gvk
              (x.schemeNew gvk (b.addIndexer x gvk).1.world).2).2).2
    ∧ (∀ w, (x.GetInformerForKind gvk
              (x.schemeNew gvk (b.addIndexer x gvk).1.world).2).2 = w →
        x.AddIndexers inf (buildIndexers x f.FieldNames) w = (none, w) →
        ((b.addIndexer x gvk).1.addIndexer x gvk).2 = none
        ∧ ((b.addIndexer x gvk).1.addIndexer x gvk).1.world = w) := by
  have e1 := addIndexer_registers x gvk b o f inf h1 hf1 hi1
  have e2 := addIndexer_registers x gvk (b.addIndexer x gvk).1 o2 f2 inf h2 hf2 hi2
  rw [hn] at e2
  refine ⟨?_, ?_, ?_, ?_, ?_⟩
  · rw [e1]
    simp [callAddIndexers, callGetInformerForKind, callSchemeNew]
  · rw [e2]
    simp [callAddIndexers, callGetInformerForKind, callSchemeNew]
  · rw [e2]
    rfl
  · rw [e2]
    rfl
  · intro w hw hadd
    rw [e2]
    simp only [callAddIndexers, callGetInformerForKind, callSchemeNew]
    rw [hw, hadd]
    exact ⟨rfl, rfl⟩

/-- C9, amended, on a cache that ignores names it already has: the second
`addIndexer` returns nil and the registered names stay `["field:f"]`. -/
theorem addIndexer_twice_witness :
    (Backend.addIndexer Sample.extLenient Sample.gvk
        (Backend.addIndexer Sample.extLenient Sample.gvk (newBackend [])).1).2 = none
    ∧ (Backend.addIndexer Sample.extLenient Sample.gvk
        (Backend.addIndexer Sample.extLenient Sample.gvk (newBackend [])).1).1.world
          = [[102, 105, 101, 108, 100, 58, 102]] :=
  (addIndexer_twice Sample.extLenient Sample.gvk (newBackend []) Sample.obj Sample.obj
    Sample.fieldsFV Sample.fieldsFV 3 rfl rfl rfl rfl rfl rfl rfl).2.2.2.2
    [[102, 105, 101, 108, 100, 58, 102]] (by decide) (by decide)

end indexer

/-! ## Properties of `Backend.Watch` -/

section watch

variable {ω : Type}

theorem Watch_forKind_error (x : Ext ω) (gvk : GVK) (name : GoString) (cb : Callback)
    (b : Backend ω) (err : GoError) (hk : (x.ForKind gvk b.world).1 = Except.error err) :
    b.Watch x gvk name cb = ((callForKind x gvk b).2, some err) := by
  simp [Backend.Watch, callForKind, hk]

theorem Watch_indexer_error (x : Ext ω) (gvk : GVK) (name : GoString) (cb : Callback)
    (b : Backend ω) (c : Controller) (err : GoError)
    (hk : (x.ForKind gvk b.world).1 = Except.ok c)
    (ha : ((callForKind x gvk b).2.addIndexer x gvk).2 = some err) :
    b.Watch x gvk name cb = (((callForKind x gvk b).2.addIndexer x gvk).1, some err) := by
  rcases hp : (callForKind x gvk b).2.addIndexer x gvk with ⟨b2, r⟩
  rw [hp] at ha
  simp only at ha
  subst ha
  have hk2 : callForKind x gvk b = (Except.ok c, (callForKind x gvk b).2) := by
    simp [callForKind, hk]
  unfold Backend.Watch
  rw [hk2]
  simp only [hp]

theorem Watch_registered (x : Ext ω) (gvk : GVK) (name : GoString) (cb : Callback)
    (b : Backend ω) (c : Controller)
    (hk : (x.ForKind gvk b.world).1 = Except.ok c)
    (ha : ((callForKind x gvk b).2.addIndexer x gvk).2 = none) :
    b.Watch x gvk name cb =
      if b.started then
        ((callControllerStart x c 5 (callRegisterHandler x c (handlerName x name gvk)
            (fun key obj => cb gvk key obj) ((callForKind x gvk b).2.addIndexer x gvk).1)).2,
          (callControllerStart x c 5 (callRegisterHandler x c (handlerName x name gvk)
            (fun key obj => cb gvk key obj) ((callForKind x gvk b).2.addIndexer x gvk).1)).1)
      else
        (callRegisterHandler x c (handlerName x name gvk)
            (fun key obj => cb gvk key obj) ((callForKind x gvk b).2.addIndexer x gvk).1,
          none) := by
  have hs : ((callForKind x gvk b).2.addIndexer x gvk).1.started = b.started :=
    (addIndexer_shape x gvk (callForKind x gvk b).2).1
  rcases hp : (callForKind x gvk b).2.addIndexer x gvk with ⟨b2, r⟩
  rw [hp] at ha hs
  simp only at ha hs
  subst ha
  have hk2 : callForKind x gvk b = (Except.ok c, (callForKind x gvk b).2) := by
    simp [callForKind, hk]
  unfold Backend.Watch
  rw [hk2]
  simp only [hp, callRegisterHandler, hs]

/-- A call of `Trigger` leaves the flag alone and never calls `startPurge`. -/
theorem Trigger_shape (x : Ext ω) (gvk : GVK) (key : GoString) (delay : Int) (b : Backend ω) :
    (b.Trigger x gvk key delay).1.started = b.started
    ∧ ∃ d, (b.Trigger x gvk key delay).1.trace = b.trace ++ d
        ∧ d.countP Call.isStartPurge = 0 := by
  unfold Backend.Trigger
  cases hk : (x.ForKind gvk b.world).1 with
  | error err =>
    have hk2 : callForKind x gvk b = (Except.error err, (callForKind x gvk b).2) := by
      simp [callForKind, hk]
    rw [hk2]
    exact ⟨rfl, [Call.forKind gvk], rfl, by simp [Call.isStartPurge]⟩
  | ok c =>
    have hk2 : callForKind x gvk b = (Except.ok c, (callForKind x gvk b).2) := by
      simp [callForKind, hk]
    rw [hk2]
    simp only
    split
    · split
      · rename_i ns nm _
        exact ⟨rfl, [Call.forKind gvk, Call.enqueueAfter c ns nm delay],
          by simp [callEnqueueAfter, callForKind], by simp [Call.isStartPurge]⟩
      · exact ⟨rfl, [Call.forKind gvk, Call.enqueueAfter c [] key delay],
          by simp [callEnqueueAfter, callForKind], by simp [Call.isStartPurge]⟩
    · exact ⟨rfl, [Call.forKind gvk, Call.enqueueKey c (x.TriggerPrefix ++ key)],
        by simp [callEnqueueKey, callForKind], by simp [Call.isStartPurge]⟩

/-- A call of `Watch` leaves the flag alone and never calls `startPurge`. -/
theorem Watch_shape (x : Ext ω) (gvk : GVK) (name : GoString) (cb : Callback) (b : Backend ω) :
    (b.Watch x gvk name cb).1.started = b.started
    ∧ ∃ d, (b.Watch x gvk name cb).1.trace = b.trace ++ d
        ∧ d.countP Call.isStartPurge = 0 := by
  obtain ⟨hs, d, hd, hc⟩ := addIndexer_shape x gvk (callForKind x gvk b).2
  have hd0 : d.countP Call.isStartPurge = 0 :=
    List.countP_eq_zero.mpr (fun c hm => by simp [(hc c hm).1])
  have hfk : (callForKind x gvk b).2.trace = b.trace ++ [Call.forKind gvk] := rfl
  cases hk : (x.ForKind gvk b.world).1 with
  | error err =>
    rw [Watch_forKind_error x gvk name cb b err hk]
    exact ⟨rfl, [Call.forKind gvk], rfl, by simp [Call.isStartPurge]⟩
  | ok c =>
    cases ha : ((callForKind x gvk b).2.addIndexer x gvk).2 with
    | some err =>
      rw [Watch_indexer_error x gvk name cb b c err hk ha]
      refine ⟨hs, Call.forKind gvk :: d, ?_, ?_⟩
      · rw [hd, hfk]; simp
      · simp [List.countP_cons, hd0, Call.isStartPurge]
    | none =>
      rw [Watch_registered x gvk name cb b c hk ha]
      cases hst : b.started with
      | false =>
        refine ⟨by simpa [callRegisterHandler] using hs.trans hst,
          Call.forKind gvk :: (d ++ [Call.registerHandler c (handlerName x name gvk)
            (fun key obj => cb gvk key obj)]), ?_, ?_⟩
        · simp [callRegisterHandler, hd, hfk]
        · simp [List.countP_cons, List.countP_append, hd0, Call.isStartPurge]
      | true =>
        refine ⟨by simpa [callControllerStart, callRegisterHandler] using hs.trans hst,
          Call.forKind gvk :: (d ++ [Call.registerHandler c (handlerName x name gvk)
            (fun key obj => cb gvk key obj), Call.controllerStart c 5]), ?_, ?_⟩
        · simp [callControllerStart, callRegisterHandler, hd, hfk]
        · simp [List.countP_cons, List.countP_append, hd0, Call.isStartPurge]

end watch

/-! ## Sequences of calls -/

section sequences

variable {ω : Type}

/-- What one operation does to the flag and how often it calls `startPurge`. -/
theorem Op_run_shape (x : Ext ω) (op : Op) (b : Backend ω) :
    (op.run x b).1.started = (b.started || (op.isStart && (op.run x b).2.isNone))
    ∧ ∃ d, (op.run x b).1.trace = b.trace ++ d
        ∧ d.countP Call.isStartPurge
            = (op.isStart && (op.run x b).2.isNone && !b.started).toNat := by
  cases op with
  | start =>
    simp only [Op.run, Op.isStart]
    rcases Start_cases x b with ⟨err, h1⟩ | ⟨h1, h2⟩ | ⟨h1, h2, h3⟩ | ⟨h1, h2, h3⟩
    · simp only [Start_factory_error x b err h1]
      exact ⟨by simp, [Call.factoryStart 5], rfl, by simp [Call.isStartPurge]⟩
    · simp only [Start_sync_false x b h1 h2]
      exact ⟨by simp, [Call.factoryStart 5, Call.waitForCacheSync], rfl,
        by simp [Call.isStartPurge]⟩
    · simp only [Start_first x b h1 h2 h3]
      exact ⟨by simp, [Call.factoryStart 5, Call.waitForCacheSync, Call.startPurge], rfl,
        by simp [Call.isStartPurge, h3]⟩
    · simp only [Start_again x b h1 h2 h3]
      exact ⟨by simp, [Call.factoryStart 5, Call.waitForCacheSync], rfl,
        by simp [Call.isStartPurge, h3]⟩
  | trigger gvk key delay =>
    obtain ⟨hs, d, hd, hc⟩ := Trigger_shape x gvk key delay b
    exact ⟨by simpa [Op.run, Op.isStart] using hs, d, hd, by simpa [Op.isStart] using hc⟩
  | watch gvk name cb =>
    obtain ⟨hs, d, hd, hc⟩ := Watch_shape x gvk name cb b
    exact ⟨by simpa [Op.run, Op.isStart] using hs, d, hd, by simpa [Op.isStart] using hc⟩

theorem runOps_cons (x : Ext ω) (op : Op) (ops : List Op) (b : Backend ω) :
    runOps x (op :: ops) b =
      (⟨op, b, (op.run x b).1.trace.drop b.trace.length, (op.run x b).2⟩
          :: (runOps x ops (op.run x b).1).1,
        (runOps x ops (op.run x b).1).2) := rfl

/-- The calls recorded for one operation are the ones it appended. -/
theorem Op_run_calls (x : Ext ω) (op : Op) (b : Backend ω) :
    (op.run x b).1.trace = b.trace ++ (op.run x b).1.trace.drop b.trace.length
    ∧ ((op.run x b).1.trace.drop b.trace.length).countP Call.isStartPurge
        = (op.isStart && (op.run x b).2.isNone && !b.started).toNat := by
  obtain ⟨_, d, hd, hc⟩ := Op_run_shape x op b
  have hdrop : (op.run x b).1.trace.drop b.trace.length = d := by
    rw [hd, List.drop_left]
  rw [hdrop]
  exact ⟨hd, hc⟩

/-- The state an operation of a run starts from has the flag set exactly
when the run started with it set or an earlier `Start` returned nil. -/
theorem runOps_before (x : Ext ω) (ops : List Op) (b : Backend ω)
    (pre : List (Record ω)) (r : Record ω) (post : List (Record ω))
    (h : (runOps x ops b).1 = pre ++ r :: post) :
    r.before.started = (b.started || pre.any Record.startOk)
    ∧ r.err = (r.op.run x r.before).2
    ∧ r.calls = (r.op.run x r.before).1.trace.drop r.before.trace.length := by
  induction ops generalizing b pre with
  | nil => simp [runOps] at h
  | cons op ops ih =>
    rw [runOps_cons] at h
    cases pre with
    | nil =>
      simp only [List.nil_append, List.cons.injEq] at h
      obtain ⟨h, _⟩ := h
      subst h
      simp
    | cons q pre =>
      simp only [List.cons_append, List.cons.injEq] at h
      obtain ⟨hq, hrest⟩ := h
      obtain ⟨h1, h2, h3⟩ := ih (op.run x b).1 pre hrest
      refine ⟨?_, h2, h3⟩
      rw [h1, (Op_run_shape x op b).1, ← hq]
      simp [Record.startOk, Bool.or_assoc]

/-- Within a run, an operation calls `startPurge` once if it is a `Start`
that returns nil from a state whose flag is unset, and never otherwise. -/
theorem runOps_purge_at (x : Ext ω) (ops : List Op) (b : Backend ω)
    (pre : List (Record ω)) (r : Record ω) (post : List (Record ω))
    (h : (runOps x ops b).1 = pre ++ r :: post) :
    r.calls.countP Call.isStartPurge
      = (r.startOk && !b.started && !pre.any Record.startOk).toNat := by
  obtain ⟨h1, h2, h3⟩ := runOps_before x ops b pre r post h
  rw [h3, (Op_run_calls x r.op r.before).2, h1, ← h2]
  simp only [Record.startOk]
  generalize pre.any (fun q => q.op.isStart && q.err.isNone) = t
  generalize r.err.isNone = n
  generalize r.op.isStart = i
  generalize b.started = st
  cases st <;> cases i <;> cases n <;> cases t <;> rfl

theorem runOps_trace (x : Ext ω) (ops : List Op) (b : Backend ω) :
    (runOps x ops b).2.trace = b.trace ++ ((runOps x ops b).1.map Record.calls).flatten := by
  induction ops generalizing b with
  | nil => simp [runOps]
  | cons op ops ih =>
    rw [runOps_cons]
    simp only [List.map_cons, List.flatten_cons]
    rw [ih, ← List.append_assoc, ← (Op_run_calls x op b).1]

theorem runOps_purge_total (x : Ext ω) (ops : List Op) (b : Backend ω) :
    (((runOps x ops b).1.map Record.calls).flatten).countP Call.isStartPurge
      = (!b.started && (runOps x ops b).1.any Record.startOk).toNat := by
  induction ops generalizing b with
  | nil => simp [runOps]
  | cons op ops ih =>
    rw [runOps_cons]
    simp only [List.map_cons, List.flatten_cons, List.countP_append, List.any_cons]
    rw [ih, (Op_run_calls x op b).2, (Op_run_shape x op b).1]
    simp only [Record.startOk]
    generalize (runOps x ops (op.run x b).1).1.any Record.startOk = t
    generalize (op.run x b).2.isNone = n
    generalize op.isStart = i
    generalize b.started = st
    cases st <;> cases i <;> cases n <;> cases t <;> rfl

theorem runOps_ops (x : Ext ω) (ops : List Op) (b : Backend ω) :
    (runOps x ops b).1.map Record.op = ops := by
  induction ops generalizing b with
  | nil => simp [runOps]
  | cons op ops ih =>
    rw [runOps_cons]
    simp [ih]

/-- C5: over every sequence of calls made one after another on a new
`Backend` (any mix of `Start`, `Trigger` and `Watch`, succeeding or failing),
`startPurge` is called at most once in total and exactly once if some `Start`
returns nil: it is called during the first `Start` that returns nil and
during no other call. -/
theorem startPurge_once (x : Ext ω) (w : ω) (ops : List Op) :
    (runOps x ops (newBackend w)).1.map Record.op = ops
    ∧ (runOps x ops (newBackend w)).2.trace
        = ((runOps x ops (newBackend w)).1.map Record.calls).flatten
    ∧ (∀ pre r post, (runOps x ops (newBackend w)).1 = pre ++ r :: post →
        r.err = (r.op.run x r.before).2
        ∧ r.calls = (r.op.run x r.before).1.trace.drop r.before.trace.length
        ∧ r.calls.countP Call.isStartPurge
            = if r.startOk = true ∧ ∀ q ∈ pre, q.startOk = false then 1 else 0)
    ∧ (runOps x ops (newBackend w)).2.trace.countP Call.isStartPurge
        = (if ∃ r ∈ (runOps x ops (newBackend w)).1, r.startOk = true then 1 else 0)
    ∧ (runOps x ops (newBackend w)).2.trace.countP Call.isStartPurge ≤ 1 := by
  have htrace := runOps_trace x ops (newBackend w)
  have htotal := runOps_purge_total x ops (newBackend w)
  simp only [newBackend, List.nil_append] at htrace htotal
  simp only [newBackend] at *
  refine ⟨runOps_ops x ops _, htrace, ?_, ?_, ?_⟩
  · intro pre r post h
    obtain ⟨_, h2, h3⟩ := runOps_before x ops _ pre r post h
    refine ⟨h2, h3, ?_⟩
    rw [runOps_purge_at x ops _ pre r post h]
    cases hr : r.startOk <;> cases hp : pre.any Record.startOk
    · simp
    · simp
    · have : ∀ q ∈ pre, q.startOk = false := by
        intro q hq
        cases hq2 : q.startOk with
        | false => rfl
        | true =>
          have : pre.any Record.startOk = true := List.any_eq_true.mpr ⟨q, hq, hq2⟩
          rw [hp] at this
          exact absurd this (by decide)
      simp only [Bool.not_false, Bool.and_true, Bool.toNat_true, true_and]
      rw [if_pos this]
    · obtain ⟨q, hq, hq2⟩ := List.any_eq_true.mp hp
      have : ¬ ∀ q ∈ pre, q.startOk = false := fun hall => by
        rw [hall q hq] at hq2
        exact absurd hq2 (by decide)
      simp [this]
  · rw [htrace, htotal]
    cases hp : (runOps x ops { started := false, world := w, trace := [] }).1.any Record.startOk
    · have : ¬ ∃ r ∈ (runOps x ops { started := false, world := w, trace := [] }).1,
          r.startOk = true := by
        rintro ⟨r, hr, hr2⟩
        have : (runOps x ops { started := false, world := w, trace := [] }).1.any
            Record.startOk = true := List.any_eq_true.mpr ⟨r, hr, hr2⟩
        rw [hp] at this
        exact absurd this (by decide)
      simp [this]
    · have : ∃ r ∈ (runOps x ops { started := false, world := w, trace := [] }).1,
          r.startOk = true := List.any_eq_true.mp hp
      simp [this]
  · rw [htrace, htotal]
    exact Bool.toNat_le _

/-- C5 on the sample collaborators: three calls of `Start` with a `Watch`
in between call `startPurge` once. -/
theorem startPurge_once_witness :
    (runOps Sample.ext [Op.start, Op.watch Sample.gvk [104] Sample.cb, Op.start, Op.start]
        (newBackend [])).2.trace.countP Call.isStartPurge = 1 :=
  (startPurge_once Sample.ext []
    [Op.start, Op.watch Sample.gvk [104] Sample.cb, Op.start, Op.start]).2.2.2.1.trans
    (by decide)

end sequences

/-! ## Concurrent calls of `Start` -/

section concurrent

variable {ω : Type}

/-- A goroutine that runs alone through the steps of `Start` returns what
`Backend.Start` returns and leaves the state `Backend.Start` leaves. -/
theorem runStart_eq_Start (x : Ext ω) (b : Backend ω) :
    runStart x 5 (StartPC.factoryStart, b) = (StartPC.returned (b.Start x).2, (b.Start x).1) := by
  rcases Start_cases x b with ⟨err, h1⟩ | ⟨h1, h2⟩ | ⟨h1, h2, h3⟩ | ⟨h1, h2, h3⟩
  · rw [Start_factory_error x b err h1]
    simp [runStart, stepStart, callFactoryStart, h1, startDeferred]
  · rw [Start_sync_false x b h1 h2]
    simp [runStart, stepStart, callFactoryStart, callWaitForCacheSync, h1, h2, startDeferred]
  · rw [Start_first x b h1 h2 h3]
    simp [runStart, stepStart, callFactoryStart, callWaitForCacheSync, callStartPurge, h1, h2,
      h3, startDeferred]
  · rw [Start_again x b h1 h2 h3]
    simp [runStart, stepStart, callFactoryStart, callWaitForCacheSync, h1, h2, h3,
      startDeferred]

/-- C6: two goroutines call `Start` on a new `Backend` whose factory starts
and whose cache syncs. In the schedule where both load the flag before either
runs its deferred store, both return nil and `startPurge` is called twice:
the load and the store are separate atomic operations, not one
check-and-set. -/
theorem Start_race_purges_twice :
    (Conc.run Sample.ext [0, 0, 0, 1, 1, 1, 0, 0, 1, 1]
        (Conc.init 2 (newBackend []))).pcs
      = [StartPC.returned none, StartPC.returned none]
    ∧ (Conc.run Sample.ext [0, 0, 0, 1, 1, 1, 0, 0, 1, 1]
        (Conc.init 2 (newBackend []))).shared.trace.countP Call.isStartPurge = 2
    ∧ (Conc.run Sample.ext [0, 0, 0, 1, 1, 1, 0, 0, 1, 1]
        (Conc.init 2 (newBackend []))).shared.started = true
    ∧ (Conc.run Sample.ext [0, 0, 0, 0, 0, 1, 1, 1, 1, 1]
        (Conc.init 2 (newBackend []))).shared.trace.countP Call.isStartPurge = 1 := by
  decide

end concurrent

/-! ## What `Watch` registers and starts -/

section registration

variable {ω : Type}

/-- The calls of a `Watch` whose `ForKind` and `addIndexer` succeed. -/
theorem Watch_ok_trace (x : Ext ω) (gvk : GVK) (name : GoString) (cb : Callback)
    (b : Backend ω) (c : Controller)
    (hk : (x.ForKind gvk b.world).1 = Except.ok c)
    (ha : ((callForKind x gvk b).2.addIndexer x gvk).2 = none) :
    ∃ d, (∀ e ∈ d, e.isStartPurge = false ∧ e.isRegisterHandler = false
            ∧ e.isControllerStart = false ∧ e.isQueueOp = false)
      ∧ ((callForKind x gvk b).2.addIndexer x gvk).1.trace = b.trace ++ Call.forKind gvk :: d
      ∧ (b.Watch x gvk name cb).1.trace
          = b.trace ++ (Call.forKind gvk :: d
              ++ Call.registerHandler c (handlerName x name gvk) (fun key obj => cb gvk key obj)
                :: (if b.started then [Call.controllerStart c 5] else [])) := by
  obtain ⟨_, d, hd, hc⟩ := addIndexer_shape x gvk (callForKind x gvk b).2
  have hfk : (callForKind x gvk b).2.trace = b.trace ++ [Call.forKind gvk] := rfl
  refine ⟨d, hc, by rw [hd, hfk]; simp, ?_⟩
  rw [Watch_registered x gvk name cb b c hk ha]
  cases b.started
  · simp [callRegisterHandler, hd, hfk]
  · simp [callControllerStart, callRegisterHandler, hd, hfk]

/-- C7: when `ForKind` and `addIndexer` succeed, `Watch` registers the
handler on the kind's controller and then calls the controller's `Start`,
with worker count 5, if and only if the flag is true; it returns that call's
result, and returns nil without starting the controller when the flag is
false. `Backend.Start` passes the same count 5 to the factory, and in every
run of calls a `Watch` made after a `Start` that returned nil finds the flag
true, so it starts its controller. -/
theorem Watch_starts_iff_started (x : Ext ω) (gvk : GVK) (name : GoString) (cb : Callback)
    (b : Backend ω) (c : Controller)
    (hk : (x.ForKind gvk b.world).1 = Except.ok c)
    (ha : ((callForKind x gvk b).2.addIndexer x gvk).2 = none) :
    (b.Watch x gvk name cb).1.trace
        = ((callForKind x gvk b).2.addIndexer x gvk).1.trace
          ++ Call.registerHandler c (handlerName x name gvk) (fun key obj => cb gvk key obj)
            :: (if b.started then [Call.controllerStart c 5] else [])
    ∧ ((b.Watch x gvk name cb).1.trace.drop b.trace.length).filter Call.isControllerStart
        = (if b.started then [Call.controllerStart c 5] else [])
    ∧ (b.started = true →
        (b.Watch x gvk name cb).2
          = (x.controllerStart c 5 (x.RegisterHandler c (handlerName x name gvk)
              (fun key obj => cb gvk key obj)
              ((callForKind x gvk b).2.addIndexer x gvk).1.world)).1)
    ∧ (b.started = false → (b.Watch x gvk name cb).2 = none)
    ∧ (b.Watch x gvk name cb).1.started = b.started
    ∧ (∃ d, (b.Start x).1.trace = b.trace ++ Call.factoryStart 5 :: d)
    ∧ ((b.Start x).2 = none → (b.Start x).1.started = true)
    ∧ (∀ (ops : List Op) (b0 : Backend ω) (pre : List (Record ω)) (r : Record ω)
        (post : List (Record ω)),
        (runOps x ops b0).1 = pre ++ r :: post →
        (∃ q ∈ pre, q.startOk = true) → r.before.started = true) := by
  obtain ⟨d, hc, hd, hw⟩ := Watch_ok_trace x gvk name cb b c hk ha
  refine ⟨?_, ?_, ?_, ?_, (Watch_shape x gvk name cb b).1, ?_, ?_, ?_⟩
  · rw [hw, hd]; simp
  · rw [hw, List.drop_left]
    have hd0 : d.filter Call.isControllerStart = [] :=
      List.filter_eq_nil_iff.mpr (fun e he => by simp [(hc e he).2.2.1])
    cases b.started <;>
      simp [List.filter_cons, List.filter_append, hd0, Call.isControllerStart]
  · intro hs
    rw [Watch_registered x gvk name cb b c hk ha, if_pos hs]
    rfl
  · intro hs
    rw [Watch_registered x gvk name cb b c hk ha, hs]
    rfl
  · rcases Start_cases x b with ⟨err, h1⟩ | ⟨h1, h2⟩ | ⟨h1, h2, h3⟩ | ⟨h1, h2, h3⟩
    · exact ⟨[], by rw [Start_factory_error x b err h1]⟩
    · exact ⟨[Call.waitForCacheSync], by rw [Start_sync_false x b h1 h2]⟩
    · exact ⟨[Call.waitForCacheSync, Call.startPurge], by rw [Start_first x b h1 h2 h3]⟩
    · exact ⟨[Call.waitForCacheSync], by rw [Start_again x b h1 h2 h3]⟩
  · intro h
    have h2 : (Op.run x Op.start b).2 = none := h
    have h3 := (Op_run_shape x Op.start b).1
    rw [h2] at h3
    simpa [Op.isStart] using h3
  · intro ops b0 pre r post h ⟨q, hq, hq2⟩
    rw [(runOps_before x ops b0 pre r post h).1]
    have : pre.any Record.startOk = true := List.any_eq_true.mpr ⟨q, hq, hq2⟩
    simp [this]

/-- C7 on the sample collaborators: a `Watch` made after a successful
`Start` starts the controller of its kind with five workers. -/
theorem Watch_starts_iff_started_witness :
    ((Backend.Watch Sample.ext Sample.gvk [104] Sample.cb
        (Backend.Start Sample.ext (newBackend [])).1).1.trace.drop
          (Backend.Start Sample.ext (newBackend [])).1.trace.length).filter
        Call.isControllerStart
      = [Call.controllerStart 7 5] :=
  (Watch_starts_iff_started Sample.ext Sample.gvk [104] Sample.cb
    (Backend.Start Sample.ext (newBackend [])).1 7 rfl rfl).2.1

/-- C8: an error of `ForKind` is returned unchanged by `Trigger`, which then
enqueues nothing, and by `Watch`, which then calls neither the scheme nor the
cache nor the controller. An error of `addIndexer` (from the scheme, from
`GetInformerForKind` or from `AddIndexers`) is returned unchanged by `Watch`,
which then neither registers the handler nor starts the controller. In every
call of `Watch` the calls made by `addIndexer` come before the handler
registration and the controller start. -/
theorem errors_propagate (x : Ext ω) (gvk : GVK) (key : GoString) (delay : Int)
    (name : GoString) (cb : Callback) (b : Backend ω) :
    (∀ err, (x.ForKind gvk b.world).1 = Except.error err →
        (b.Trigger x gvk key delay).2 = some err
        ∧ (b.Trigger x gvk key delay).1.trace = b.trace ++ [Call.forKind gvk]
        ∧ (b.Watch x gvk name cb).2 = some err
        ∧ (b.Watch x gvk name cb).1.trace = b.trace ++ [Call.forKind gvk])
    ∧ (∀ c err, (x.ForKind gvk b.world).1 = Except.ok c →
        ((callForKind x gvk b).2.addIndexer x gvk).2 = some err →
        (b.Watch x gvk name cb).2 = some err
        ∧ (b.Watch x gvk name cb).1 = ((callForKind x gvk b).2.addIndexer x gvk).1
        ∧ ((b.Watch x gvk name cb).1.trace.drop b.trace.length).filter
            (fun e => e.isRegisterHandler || e.isControllerStart) = [])
    ∧ (∀ err, (x.schemeNew gvk b.world).1 = Except.error err →
        (b.addIndexer x gvk).2 = some err
        ∧ (b.addIndexer x gvk).1.trace = b.trace ++ [Call.schemeNew gvk])
    ∧ (∀ o f err, (x.schemeNew gvk b.world).1 = Except.ok o → o.asFields = some f →
        (x.GetInformerForKind gvk (x.schemeNew gvk b.world).2).1 = Except.error err →
        (b.addIndexer x gvk).2 = some err
        ∧ (b.addIndexer x gvk).1.trace
            = b.trace ++ [Call.schemeNew gvk, Call.getInformerForKind gvk])
    ∧ (∀ o f inf err, (x.schemeNew gvk b.world).1 = Except.ok o → o.asFields = some f →
        (x.GetInformerForKind gvk (x.schemeNew gvk b.world).2).1 = Except.ok inf →
        (x.AddIndexers inf (buildIndexers x f.FieldNames)
          (x.GetInformerForKind gvk (x.schemeNew gvk b.world).2).2).1 = some err →
        (b.addIndexer x gvk).2 = some err
        ∧ (b.addIndexer x gvk).1.trace
            = b.trace ++ [Call.schemeNew gvk, Call.getInformerForKind gvk,
                Call.addIndexers inf (buildIndexers x f.FieldNames)])
    ∧ (∃ pre post, (b.Watch x gvk name cb).1.trace = b.trace ++ (pre ++ post)
        ∧ (∀ e ∈ pre, e.isRegisterHandler = false ∧ e.isControllerStart = false)
        ∧ (∀ e ∈ post, e.isAddIndexers = false)) := by
  refine ⟨?_, ?_, ?_, ?_, ?_, ?_⟩
  · intro err hk
    rw [Watch_forKind_error x gvk name cb b err hk]
    have ht : b.Trigger x gvk key delay = ((callForKind x gvk b).2, some err) := by
      simp [Backend.Trigger, callForKind, hk]
    rw [ht]
    exact ⟨rfl, rfl, rfl, rfl⟩
  · intro c err hk ha
    obtain ⟨_, d, hd, hc⟩ := addIndexer_shape x gvk (callForKind x gvk b).2
    have hfk : (callForKind x gvk b).2.trace = b.trace ++ [Call.forKind gvk] := rfl
    rw [Watch_indexer_error x gvk name cb b c err hk ha]
    refine ⟨rfl, rfl, ?_⟩
    simp only
    rw [hd, hfk, List.append_assoc, List.drop_left]
    refine List.filter_eq_nil_iff.mpr (fun e he => ?_)
    rcases List.mem_append.mp he with he | he
    · simp only [List.mem_singleton] at he
      subst he
      simp [Call.isRegisterHandler, Call.isControllerStart]
    · simp [(hc e he).2.1, (hc e he).2.2.1]
  · intro err h
    rw [addIndexer_scheme_error x gvk b err h]
    exact ⟨rfl, rfl⟩
  · intro o f err h hf hi
    rw [addIndexer_informer_error x gvk b o f err h hf hi]
    exact ⟨rfl, by simp [callGetInformerForKind, callSchemeNew]⟩
  · intro o f inf err h hf hi hadd
    rw [addIndexer_registers x gvk b o f inf h hf hi]
    exact ⟨by simpa [callAddIndexers, callGetInformerForKind, callSchemeNew] using hadd,
      by simp [callAddIndexers, callGetInformerForKind, callSchemeNew]⟩
  · obtain ⟨_, d, hd, hc⟩ := addIndexer_shape x gvk (callForKind x gvk b).2
    have hfk : (callForKind x gvk b).2.trace = b.trace ++ [Call.forKind gvk] := rfl
    have hpre : ∀ e ∈ Call.forKind gvk :: d,
        e.isRegisterHandler = false ∧ e.isControllerStart = false := by
      intro e he
      rcases List.mem_cons.mp he with he | he
      · subst he
        exact ⟨rfl, rfl⟩
      · exact ⟨(hc e he).2.1, (hc e he).2.2.1⟩
    cases hk : (x.ForKind gvk b.world).1 with
    | error err =>
      rw [Watch_forKind_error x gvk name cb b err hk]
      exact ⟨[Call.forKind gvk], [], rfl, by simp [Call.isRegisterHandler,
        Call.isControllerStart], by simp⟩
    | ok c =>
      cases ha : ((callForKind x gvk b).2.addIndexer x gvk).2 with
      | some err =>
        rw [Watch_indexer_error x gvk name cb b c err hk ha]
        exact ⟨Call.forKind gvk :: d, [], by simp [hd, hfk], hpre, by simp⟩
      | none =>
        obtain ⟨d2, _, hd2, hw⟩ := Watch_ok_trace x gvk name cb b c hk ha
        have hdd : d2 = d := by
          have := hd2.symm.trans (hd.trans (by rw [hfk]))
          simpa using this
        subst hdd
        refine ⟨Call.forKind gvk :: d2,
          Call.registerHandler c (handlerName x name gvk) (fun key obj => cb gvk key obj)
            :: (if b.started then [Call.controllerStart c 5] else []), hw, hpre, ?_⟩
        intro e he
        rcases List.mem_cons.mp he with he | he
        · subst he
          rfl
        · cases hs : b.started
          · simp [hs] at he
          · simp only [hs, if_true, List.mem_singleton] at he
            subst he
            rfl

/-- C8 on sample collaborators whose factory knows no kind: `Trigger` and
`Watch` return the lookup error after the `ForKind` call alone. -/
theorem errors_propagate_witness :
    (Backend.Trigger Sample.extNoKind Sample.gvk Sample.nsName 0 (newBackend [])).2
        = some "unknown kind"
    ∧ (Backend.Trigger Sample.extNoKind Sample.gvk Sample.nsName 0 (newBackend [])).1.trace
        = [Call.forKind Sample.gvk]
    ∧ (Backend.Watch Sample.extNoKind Sample.gvk [104] Sample.cb (newBackend [])).2
        = some "unknown kind"
    ∧ (Backend.Watch Sample.extNoKind Sample.gvk [104] Sample.cb (newBackend [])).1.trace
        = [Call.forKind Sample.gvk] :=
  (errors_propagate Sample.extNoKind Sample.gvk Sample.nsName 0 [104] Sample.cb
    (newBackend [])).1 "unknown kind" rfl

/-- Sample collaborators whose scheme cannot create the kind: `Watch`
returns the scheme's error and registers nothing. -/
theorem Watch_scheme_failure_sample :
    (Backend.Watch Sample.extNoScheme Sample.gvk [104] Sample.cb (newBackend [])).2
        = some "no kind registered"
    ∧ (Backend.Watch Sample.extNoScheme Sample.gvk [104] Sample.cb (newBackend [])).1.trace
        = [Call.forKind Sample.gvk, Call.schemeNew Sample.gvk] := by
  have h := Watch_indexer_error Sample.extNoScheme Sample.gvk [104] Sample.cb (newBackend [])
    7 "no kind registered" rfl rfl
  rw [h]
  exact ⟨rfl, rfl⟩

/-- Sample collaborators: a `Watch` made before `Start` registers the
handler and does not start the controller. -/
theorem Watch_before_Start_sample :
    ((Backend.Watch Sample.ext Sample.gvk [104] Sample.cb (newBackend [])).1.trace).filter
        Call.isControllerStart = []
    ∧ ((Backend.Watch Sample.ext Sample.gvk [104] Sample.cb (newBackend [])).1.trace).countP
        Call.isRegisterHandler = 1
    ∧ (Backend.Watch Sample.ext Sample.gvk [104] Sample.cb (newBackend [])).2 = none := by
  have h := Watch_registered Sample.ext Sample.gvk [104] Sample.cb (newBackend []) 7 rfl rfl
  rw [h]
  exact ⟨rfl, rfl, rfl⟩

end registration

end Baaah
